import Mathlib

/-!
Verification development for the relevx research-orchestration engine.

The definitions below are a shallow embedding, translated from the
TypeScript source, of the parts of the program the verified claims are
about: URL normalization (packages/core/src/services/brave-search.ts),
scheduling math (utils/scheduling.ts), the frequency guard, and the
research orchestrator executeResearchForProject (the research
orchestrator module) together with the provider interfaces it is written
against.

Modelling conventions: machine numbers are Nat or Int; JavaScript string
operations are modelled over the underlying character lists (ASCII case
folding); external providers (LLM, search, content extraction) are
inputs of the model, supplied as functions in an environment record;
persistence calls (Firestore updates, history updates, report
compilation) are recorded in the run outcome instead of performed;
clock reads are a single nowMs parameter.
-/

namespace Relevx

/-! ## String helpers (models of the JavaScript string operations used) -/

/-- Model of JavaScript toLowerCase restricted to ASCII letters, stated
over character codes. -/
def lowerChar (c : Char) : Char :=
  if 65 ≤ c.toNat ∧ c.toNat ≤ 90 then Char.ofNat (c.toNat + 32) else c

/-- Lower-case every character of a string. -/
def lowerStr (s : String) : String := ⟨s.data.map lowerChar⟩

/-- Decide whether the list pat occurs at the start of l. -/
def isPrefixCh : List Char → List Char → Bool
  | [], _ => true
  | _ :: _, [] => false
  | a :: as, b :: bs => a == b && isPrefixCh as bs

/-- Decide whether pat occurs as a contiguous sublist of l
(model of JavaScript String.includes). -/
def containsCh (pat : List Char) : List Char → Bool
  | [] => isPrefixCh pat []
  | c :: rest => isPrefixCh pat (c :: rest) || containsCh pat rest

/-- Model of JavaScript s.includes(pat). -/
def strIncludes (s pat : String) : Bool := containsCh pat.data s.data

/-! ## URL parsing and normalization

Model of the WHATWG URL parser restricted to absolute URLs of the shape
scheme://host[:port]/path[?query][#fragment], which is the shape of every
URL the engine handles.  The scheme must start the string and end at the
first colon, followed by two slashes; the host runs to the first slash,
question mark or hash and must be nonempty; an optional port after a colon
inside the authority is dropped from hostname; the path runs to the first
question mark or hash and defaults to a single slash.  Scheme and hostname
are lower-cased by the parser, as the WHATWG parser does.  Inputs outside
this shape (relative URLs, userinfo, IPv6 hosts, invalid ports) are out of
scope of the model. -/

structure ParsedUrl where
  scheme : List Char
  hostname : List Char
  pathname : List Char
deriving DecidableEq

/-- ASCII letter test over character codes. -/
def isAsciiLetter (c : Char) : Bool :=
  (65 ≤ c.toNat ∧ c.toNat ≤ 90) ∨ (97 ≤ c.toNat ∧ c.toNat ≤ 122)

/-- Characters allowed in a scheme after the first (ASCII letter) one:
letters, digits, and the codes of plus (43), minus (45) and dot (46). -/
def isSchemeChar (c : Char) : Bool :=
  isAsciiLetter c ∨ (48 ≤ c.toNat ∧ c.toNat ≤ 57) ∨ c.toNat = 43 ∨ c.toNat = 45 ∨ c.toNat = 46

/-- Scheme validity: nonempty, starts with a letter, rest scheme characters. -/
def schemeOk : List Char → Bool
  | [] => false
  | c :: rest => isAsciiLetter c && rest.all isSchemeChar

/-- Parse an absolute URL, returning none where the WHATWG parser throws. -/
def parseUrl (s : String) : Option ParsedUrl :=
  let l := s.data
  let sch := l.takeWhile (fun c => c ≠ ':')
  let rest := l.drop sch.length
  match rest with
  | ':' :: '/' :: '/' :: r =>
    if schemeOk sch then
      let hostport := r.takeWhile (fun c => c ≠ '/' ∧ c ≠ '?' ∧ c ≠ '#')
      let rem := r.drop hostport.length
      let hostname := (hostport.takeWhile (fun c => c ≠ ':')).map lowerChar
      if hostname.isEmpty then none
      else
        let pathname :=
          match rem with
          | '/' :: _ => rem.takeWhile (fun c => c ≠ '?' ∧ c ≠ '#')
          | _ => ['/']
        some ⟨sch.map lowerChar, hostname, pathname⟩
    else none
  | _ => none

/-- Strip one leading www. from a host, as normalizeUrl does. -/
def stripWwwOnce (h : List Char) : List Char :=
  if isPrefixCh ['w', 'w', 'w', '.'] h then h.drop 4 else h

/-- Strip one trailing slash from a pathname unless the path is the root. -/
def stripTrailingSlashPath (p : List Char) : List Char :=
  if p.getLast? = some '/' ∧ p.length > 1 then p.dropLast else p

/-- Model of normalizeUrl from brave-search.ts: parse the URL; lower-case
the hostname and strip a leading www.; strip a trailing slash from the
path; rebuild from scheme, host and path only (query and fragment are
discarded); on parse failure return the lower-cased input. -/
def normalizeUrl (url : String) : String :=
  match parseUrl url with
  | some u =>
    let hostname := stripWwwOnce (u.hostname.map lowerChar)
    let pathname := stripTrailingSlashPath u.pathname
    ⟨u.scheme ++ [':', '/', '/'] ++ hostname ++ pathname⟩
  | none => lowerStr url

/-- Model of the inline normalization the orchestrator uses for
deduplication: url.toLowerCase().replace with a regex that deletes one
trailing slash.  Note this is not normalizeUrl: it keeps query string,
fragment and any www. segment. -/
def simpleNormalize (u : String) : String :=
  let l := (lowerStr u).data
  ⟨if l.getLast? = some '/' then l.dropLast else l⟩

/-! ## Calendar and scheduling math

Model of the proleptic Gregorian calendar from the epoch 1970-01-01, used
by the embedding of utils/scheduling.ts.  The date-fns operations the
source uses (toZonedTime, fromZonedTime, set, add, isAfter) are modelled
over a civil wall-clock datetime; an IANA timezone is modelled as a fixed
UTC offset in milliseconds (daylight-saving transitions are outside the
model). -/

/-- Gregorian leap-year rule. -/
def isLeapYear (y : Nat) : Bool := (y % 4 = 0 ∧ y % 100 ≠ 0) ∨ y % 400 = 0

/-- Number of days in a year. -/
def daysInYear (y : Nat) : Nat := if isLeapYear y then 366 else 365

/-- Number of days in month m (1-12) of year y. -/
def daysInMonth (y m : Nat) : Nat :=
  if m = 2 then (if isLeapYear y then 29 else 28)
  else if m = 4 ∨ m = 6 ∨ m = 9 ∨ m = 11 then 30
  else 31

/-- Days from 1970-01-01 to the start of year 1970 + n. -/
def daysBeforeYearAux : Nat → Nat
  | 0 => 0
  | n + 1 => daysBeforeYearAux n + daysInYear (1970 + n)

/-- Days from 1970-01-01 to the start of year y (for y at least 1970). -/
def daysBeforeYear (y : Nat) : Nat := daysBeforeYearAux (y - 1970)

/-- Days from the start of year y to the start of month m of year y. -/
def daysBeforeMonth (y m : Nat) : Nat :=
  ((List.range (m - 1)).map (fun i => daysInMonth y (i + 1))).sum

/-- Day index (days since 1970-01-01) of the civil date y-m-d. -/
def daysFromCivil (y m d : Nat) : Nat :=
  daysBeforeYear y + daysBeforeMonth y m + (d - 1)

/-- Find the year containing day index n, returning the year and the
remaining day-of-year; fuel bounds the search and n steps of fuel always
suffice. -/
def findYearAux : Nat → Nat → Nat → Nat × Nat
  | 0, y, n => (y, n)
  | fuel + 1, y, n =>
    if daysInYear y ≤ n then findYearAux fuel (y + 1) (n - daysInYear y) else (y, n)

/-- Find the month containing day-of-year n, returning the month and the
remaining day-of-month offset. -/
def findMonthAux : Nat → Nat → Nat → Nat → Nat × Nat
  | 0, _, m, n => (m, n)
  | fuel + 1, y, m, n =>
    if daysInMonth y m ≤ n ∧ m < 12 then findMonthAux fuel y (m + 1) (n - daysInMonth y m)
    else (m, n)

/-- Civil date (year, month, day) of a day index. -/
def civilFromDays (n : Nat) : Nat × Nat × Nat :=
  let yr := findYearAux n 1970 n
  let md := findMonthAux 11 yr.1 1 yr.2
  (yr.1, md.1, md.2 + 1)

/-- Civil wall-clock datetime, the model of a zoned JavaScript Date. -/
structure CivilDateTime where
  year : Nat
  month : Nat
  day : Nat
  hour : Nat
  minute : Nat
  second : Nat
  millisecond : Nat
deriving DecidableEq

/-- Milliseconds since the epoch of a civil datetime. -/
def civilToMs (c : CivilDateTime) : Nat :=
  daysFromCivil c.year c.month c.day * 86400000
    + c.hour * 3600000 + c.minute * 60000 + c.second * 1000 + c.millisecond

/-- Civil datetime of a milliseconds-since-epoch value. -/
def civilFromMs (x : Nat) : CivilDateTime :=
  let n := x / 86400000
  let t := x % 86400000
  let ymd := civilFromDays n
  ⟨ymd.1, ymd.2.1, ymd.2.2, t / 3600000, t % 3600000 / 60000, t % 60000 / 1000, t % 1000⟩

/-- Model of date-fns set with hours, minutes and zeroed seconds and
milliseconds. -/
def setTimeOfDay (c : CivilDateTime) (hh mm : Nat) : CivilDateTime :=
  { c with hour := hh, minute := mm, second := 0, millisecond := 0 }

/-- Model of date-fns add with days, on a wall-clock datetime. -/
def addDaysCivil (c : CivilDateTime) (k : Nat) : CivilDateTime :=
  let ymd := civilFromDays (daysFromCivil c.year c.month c.day + k)
  { c with year := ymd.1, month := ymd.2.1, day := ymd.2.2 }

/-- Model of date-fns add with months: the month advances by one and the
day-of-month is clamped to the length of the target month. -/
def addMonthsCivil (c : CivilDateTime) : CivilDateTime :=
  let y := if c.month = 12 then c.year + 1 else c.year
  let m := if c.month = 12 then 1 else c.month + 1
  { c with year := y, month := m, day := min c.day (daysInMonth y m) }

/-- Project cadence. -/
inductive Frequency
  | daily
  | weekly
  | monthly
deriving DecidableEq

/-- Model of addFrequencyPeriod from scheduling.ts. -/
def addFrequencyPeriod (c : CivilDateTime) : Frequency → CivilDateTime
  | .daily => addDaysCivil c 1
  | .weekly => addDaysCivil c 7
  | .monthly => addMonthsCivil c

/-- Model of date-fns isAfter (strict comparison of instants). -/
def isAfterCivil (a b : CivilDateTime) : Bool := decide (civilToMs b < civilToMs a)

/-- Model of date-fns-tz toZonedTime with a fixed-offset timezone. -/
def toZonedTime (utcMs : Nat) (tzOffsetMs : Int) : CivilDateTime :=
  civilFromMs ((utcMs + tzOffsetMs).toNat)

/-- Model of date-fns-tz fromZonedTime with a fixed-offset timezone. -/
def fromZonedTime (c : CivilDateTime) (tzOffsetMs : Int) : Int :=
  (civilToMs c : Int) - tzOffsetMs

/-- Fueled model of the ensure-future while loop in calculateNextRunAt:
while the candidate is not strictly after now, add one frequency period. -/
def ensureFutureAux (frequency : Frequency) (nowZ : CivilDateTime) :
    Nat → CivilDateTime → CivilDateTime
  | 0, d => d
  | fuel + 1, d =>
    if isAfterCivil d nowZ then d
    else ensureFutureAux frequency nowZ fuel (addFrequencyPeriod d frequency)

/-- Model of calculateNextRunAt from scheduling.ts.  The delivery time
string has been split into hours and minutes by the caller side of the
model; the timezone is a fixed offset; the unused lastRunAt parameter of
the source is kept; the clock read is the nowMs parameter. -/
def calculateNextRunAt (frequency : Frequency) (deliveryHours deliveryMinutes : Nat)
    (tzOffsetMs : Int) (_lastRunAt : Option Nat) (nowMs : Nat) : Int :=
  let nowInUserTz := toZonedTime nowMs tzOffsetMs
  let todayAtDelivery := setTimeOfDay nowInUserTz deliveryHours deliveryMinutes
  let afterFirstCheck :=
    if isAfterCivil todayAtDelivery nowInUserTz then todayAtDelivery
    else addFrequencyPeriod todayAtDelivery frequency
  let ensured := ensureFutureAux frequency nowInUserTz 1000 afterFirstCheck
  fromZonedTime ensured tzOffsetMs

/-- Model of validateFrequency from scheduling.ts: true when there is no
prior run or at least 24 hours have elapsed since it.  The configured
frequency is ignored by the source. -/
def validateFrequency (_frequency : Frequency) (lastRunAt : Option Nat) (nowMs : Nat) : Bool :=
  match lastRunAt with
  | none => true
  | some t => decide ((86400000 : Int) ≤ (nowMs : Int) - (t : Int))

/-- Left-pad a numeral to two digits. -/
def pad2 (n : Nat) : String := if n < 10 then "0" ++ Nat.repr n else Nat.repr n

/-- Left-pad a numeral to three digits. -/
def pad3 (n : Nat) : String :=
  if n < 10 then "00" ++ Nat.repr n else if n < 100 then "0" ++ Nat.repr n else Nat.repr n

/-- Model of JavaScript Date.prototype.toISOString for timestamps at or
after the epoch. -/
def toISOString (ms : Nat) : String :=
  let c := civilFromMs ms
  Nat.repr c.year ++ "-" ++ pad2 c.month ++ "-" ++ pad2 c.day ++ "T"
    ++ pad2 c.hour ++ ":" ++ pad2 c.minute ++ ":" ++ pad2 c.second
    ++ "." ++ pad3 c.millisecond ++ "Z"

/-! ## Data model of the orchestrator

Records translated from the models and provider interfaces the research
orchestrator uses.  Fields the claims never mention (image metadata,
word counts, search-filter pass-through fields) are omitted from the
records; every field that any claim touches is present. -/

/-- One raw search hit as the orchestrator sees it after flattening
search responses (url, title, description, publishedDate). -/
structure UrlMeta where
  url : String
  title : String
  description : String
  publishedDate : String
deriving DecidableEq

/-- Per-query search response from the Search Provider. -/
structure SearchResponse where
  results : List UrlMeta
deriving DecidableEq

/-- Generated query from the Query Provider. -/
structure GeneratedQuery where
  query : String
deriving DecidableEq

/-- Extraction result from the content extractor for one URL. -/
structure ExtractedContent where
  url : String
  normalizedUrl : String
  title : String
  snippet : String
  fullContent : String
  publishedDate : String
  fetchStatus : String
  fetchedAt : Nat
deriving DecidableEq

/-- Content handed to relevancy analysis. -/
structure ContentToAnalyze where
  url : String
  title : String
  snippet : String
  publishedDate : String
deriving DecidableEq

/-- Relevancy verdict from the Analysis Provider for one URL. -/
structure RelevancyResult where
  url : String
  score : Int
  reasoning : String
  isRelevant : Bool
deriving DecidableEq

/-- Keep-or-drop verdict from the optional LLM pre-fetch filter. -/
structure FilterVerdict where
  url : String
  keep : Bool
deriving DecidableEq

/-- Persisted search-result record built for each accepted item. -/
structure SearchResultRec where
  url : String
  normalizedUrl : String
  sourceQuery : String
  searchEngine : String
  snippet : String
  fullContent : String
  relevancyScore : Int
  relevancyReason : String
  title : String
  fetchedAt : Nat
  analyzedAt : Nat
  fetchStatus : String
deriving DecidableEq

/-- Item handed to report compilation. -/
structure ResultForReport where
  url : String
  title : String
  snippet : String
  score : Int
deriving DecidableEq

/-- Compiled report returned by the Report Provider. -/
structure CompiledReport where
  title : String
  summary : String
  markdown : String
  averageScore : Int
  resultCount : Nat
deriving DecidableEq

/-- Search-history entry for one processed URL. -/
structure ProcessedUrl where
  url : String
  normalizedUrl : String
  firstSeenAt : Nat
  timesFound : Nat
  lastRelevancyScore : Int
  wasIncluded : Bool
deriving DecidableEq

/-- Project settings relevant to a run. -/
structure ProjectSettings where
  relevancyThreshold : Nat
  minResults : Nat
  maxResults : Nat
deriving DecidableEq

/-- Loaded project record, restricted to the fields the run reads. -/
structure Project where
  description : String
  frequency : Frequency
  deliveryHours : Nat
  deliveryMinutes : Nat
  tzOffsetMs : Int
  lastRunAt : Option Nat
  requiredKeywords : List String
  excludedKeywords : List String
  dateRangePreference : Option String
  settings : ProjectSettings
deriving DecidableEq

/-- Per-invocation research options. -/
structure ResearchOptions where
  maxIterations : Option Nat := none
  minResults : Option Nat := none
  maxResults : Option Nat := none
  relevancyThreshold : Option Nat := none
  ignoreFrequencyCheck : Bool := false
deriving DecidableEq

/-- Arguments of one generateSearchQueries call made by the orchestrator.
The provider interface call carries no iteration number. -/
structure QueryGenCall where
  description : String
  additionalContext : Option String
  count : Nat
  focusRecent : Bool
deriving DecidableEq

/-- Provider responses for one iteration of the loop: generated queries,
per-query search responses (a map in insertion order), the optional LLM
pre-fetch filter outcome (none models both an absent filterSearchResults
method and a call that threw, in which case the orchestrator keeps all
candidates), the content extractor, and the relevancy analysis. -/
structure IterEnv where
  generatedQueries : List GeneratedQuery
  searchResponses : List (String × SearchResponse)
  filterResult : Option (List FilterVerdict)
  extract : String → ExtractedContent
  analyze : List ContentToAnalyze → List RelevancyResult

/-- Environment of a whole run: per-iteration provider responses, the
report compiler, and the search engine name. -/
structure RunEnv where
  iter : Nat → IterEnv
  compileReport : List ResultForReport → CompiledReport
  searchEngineName : String

/-- Model of the JavaScript or-else idiom opts.x or default, where 0 is
falsy and falls back to the default. -/
def jsOrNat : Option Nat → Nat → Nat
  | some n, d => if n = 0 then d else n
  | none, d => d

/-- Model of JavaScript Set.add on an insertion-ordered string set. -/
def setAdd (s : List String) (x : String) : List String :=
  if x ∈ s then s else s ++ [x]

/-- Model of JavaScript Map.set on an insertion-ordered association list:
overwrite in place when the key exists, append otherwise. -/
def mapSet (m : List (String × Nat × Nat)) (k : String) (v : Nat × Nat) :
    List (String × Nat × Nat) :=
  match m with
  | [] => [(k, v)]
  | (k1, v1) :: rest => if k1 = k then (k1, v) :: rest else (k1, v1) :: mapSet rest k v

/-! ## The orchestrator (executeResearchForProject) -/

/-- Additional LLM context built from required keywords, as in step 7.1
of the orchestrator. -/
def buildAdditionalContext (project : Project) : Option String :=
  if project.requiredKeywords.isEmpty then none
  else some ("Please incorporate the following keywords into the search queries: "
    ++ String.intercalate ", " project.requiredKeywords
    ++ ". These keywords are important for improving search result relevance.")

/-- Arguments the orchestrator passes to generateSearchQueries each
iteration: description, keyword context, a count of 5, and focusRecent
derived from the date-range preference.  No iteration number is among
them. -/
def orchestratorQueryGenCall (project : Project) : QueryGenCall :=
  { description := project.description
    additionalContext := buildAdditionalContext project
    count := 5
    focusRecent := project.dateRangePreference = some "last_24h"
      ∨ project.dateRangePreference = some "last_week" }

/-- Iteration guidance appended to the query-generation prompt by
query-generation.ts as a function of its iteration argument. -/
def iterationGuidance (iteration : Nat) : String :=
  if iteration = 2 then
    "\n\nThis is retry iteration 2. Generate broader queries with less restrictive terms."
  else if iteration = 3 then
    "\n\nThis is retry iteration 3 (final attempt). Generate very broad queries with alternative phrasings."
  else ""

/-- Iteration argument the OpenAI provider adapter hardcodes when it
forwards generateSearchQueries to the underlying query-generation
function. -/
def openAIProviderQueryGenIteration : Nat := 1

/-- One step of the within-batch and cross-run deduplication fold: keep
the item when its simple-normalized URL is neither already processed nor
already in the batch map. -/
def dedupStep (processed : List String) (acc : List (String × UrlMeta)) (item : UrlMeta) :
    List (String × UrlMeta) :=
  let n := simpleNormalize item.url
  if n ∈ processed ∨ acc.any (fun kv => kv.1 = n) then acc else acc ++ [(n, item)]

/-- Pre-extraction filter by excluded keywords over title and description
(step 7.3.5); applied only when excluded keywords are configured. -/
def excludedKwPreFilter (excludedKeywords : List String) (l : List UrlMeta) : List UrlMeta :=
  if excludedKeywords.isEmpty then l
  else l.filter fun r =>
    let contentText := lowerStr (r.title ++ " " ++ r.description)
    ! excludedKeywords.any fun kw => strIncludes contentText (lowerStr kw)

/-- Post-extraction keyword check over title, snippet and full content
(step 7.4.5). -/
def passesContentKeywordCheck (req exc : List String) (content : ExtractedContent) : Bool :=
  let contentText := lowerStr (content.title ++ " " ++ content.snippet ++ " " ++ content.fullContent)
  if !exc.isEmpty && exc.any (fun kw => strIncludes contentText (lowerStr kw)) then false
  else if !req.isEmpty && !req.any (fun kw => strIncludes contentText (lowerStr kw)) then false
  else true

/-- Resolution of an accepted URL back to its originating query by
scanning the per-query response map in order (step 7.7.1). -/
def findSourceQuery (searchResponses : List (String × SearchResponse)) (url : String) : String :=
  match searchResponses.find? (fun qr => qr.2.results.any (fun r => r.url = url)) with
  | some qr => qr.1
  | none => "unknown"

/-- In-memory accumulator state of the iteration loop, together with the
traces of observable calls the model records (URLs handed to the content
extractor, query-generation calls made). -/
structure LoopState where
  processedUrlsSet : List String
  allRelevantResults : List SearchResultRec
  totalUrlsFetched : Nat
  totalUrlsSuccessful : Nat
  allQueriesGenerated : List String
  allQueriesExecuted : List String
  queryPerformanceMap : List (String × Nat × Nat)
  fetchedUrlsTrace : List String
  queryGenCalls : List QueryGenCall
deriving Inhabited

/-- Record built for one accepted relevancy verdict (step 7.7.2). -/
def mkSearchResult (searchResponses : List (String × SearchResponse))
    (searchEngineName : String) (nowMs : Nat) (rr : RelevancyResult)
    (ec : ExtractedContent) : SearchResultRec :=
  { url := ec.url
    normalizedUrl := ec.normalizedUrl
    sourceQuery := findSourceQuery searchResponses rr.url
    searchEngine := lowerStr searchEngineName
    snippet := ec.snippet
    fullContent := ec.fullContent
    relevancyScore := rr.score
    relevancyReason := rr.reasoning
    title := ec.title
    fetchedAt := ec.fetchedAt
    analyzedAt := nowMs
    fetchStatus := ec.fetchStatus }

/-- Query-performance counters written for every query of the iteration
(step 7.8): for each query, the number of accepted verdicts among its
results and its total result count. -/
def recordQueryPerformance (searchResponses : List (String × SearchResponse))
    (relevantVerdicts : List RelevancyResult) (m : List (String × Nat × Nat)) :
    List (String × Nat × Nat) :=
  searchResponses.foldl
    (fun acc qr => mapSet acc qr.1
      ((relevantVerdicts.filter
        (fun r => qr.2.results.any (fun br => br.url = r.url))).length,
        qr.2.results.length))
    m

/-- Unique new results of an iteration: all search hits flattened in map
order, deduplicated within the batch and against the processed set using
the simple normalization (step 7.3). -/
def iterationUniqueResults (env : IterEnv) (processed : List String) : List UrlMeta :=
  (((env.searchResponses.flatMap (fun qr => qr.2.results)).foldl
    (dedupStep processed) []).map (·.2))

/-- Candidate list of an iteration: unique new results, pre-filtered by
excluded keywords and capped at 25 (steps 7.3.5 and 7.3.6). -/
def iterationCandidates (project : Project) (env : IterEnv) (processed : List String) :
    List UrlMeta :=
  (excludedKwPreFilter project.excludedKeywords (iterationUniqueResults env processed)).take 25

/-- Candidates surviving the optional LLM pre-fetch filter (step 7.4.a);
with no filter outcome all candidates are kept. -/
def resultsToFetchOf (env : IterEnv) (limitedResults : List UrlMeta) : List UrlMeta :=
  match env.filterResult with
  | some filtered =>
    let urlsToKeep : List String := (filtered.filter (·.keep)).map (·.url)
    limitedResults.filter (fun r => r.url ∈ urlsToKeep)
  | none => limitedResults

/-- Extraction results of an iteration (step 7.4). -/
def extractedContentsOf (env : IterEnv) (limitedResults : List UrlMeta) :
    List ExtractedContent :=
  ((resultsToFetchOf env limitedResults).map (·.url)).map env.extract

/-- Successfully extracted contents with a nonempty snippet. -/
def successfulContentsOf (env : IterEnv) (limitedResults : List UrlMeta) :
    List ExtractedContent :=
  (extractedContentsOf env limitedResults).filter
    (fun c => c.fetchStatus == "success" && decide (0 < c.snippet.length))

/-- Contents surviving the post-extraction keyword filters (step 7.4.5). -/
def filteredContentsOf (project : Project) (successfulContents : List ExtractedContent) :
    List ExtractedContent :=
  if project.requiredKeywords.isEmpty ∧ project.excludedKeywords.isEmpty then
    successfulContents
  else successfulContents.filter
    (passesContentKeywordCheck project.requiredKeywords project.excludedKeywords)

/-- Accepted relevancy verdicts of an iteration (steps 7.5 and 7.6). -/
def relevantVerdictsOf (env : IterEnv) (filteredContents : List ExtractedContent) :
    List RelevancyResult :=
  (env.analyze (filteredContents.map
    (fun c => ContentToAnalyze.mk c.url c.title c.snippet c.publishedDate))).filter
    (·.isRelevant)

/-- Search-result records materialized from the accepted verdicts
(step 7.7); verdicts whose URL matches no extracted content are skipped. -/
def newRecordsOf (searchResponses : List (String × SearchResponse))
    (searchEngineName : String) (nowMs : Nat)
    (filteredContents : List ExtractedContent) (relevantVerdicts : List RelevancyResult) :
    List SearchResultRec :=
  relevantVerdicts.filterMap fun rr =>
    match filteredContents.find? (fun c => c.url = rr.url) with
    | none => none
    | some ec => some (mkSearchResult searchResponses searchEngineName nowMs rr ec)

/-- Body of one iteration of the research loop (steps 7.1 - 7.9).  The
returned flag is true exactly when the source breaks out of the while
loop at this iteration. -/
def iterationBody (project : Project) (env : IterEnv) (minResults nowMs : Nat)
    (searchEngineName : String) (st : LoopState) : LoopState × Bool :=
  let queries : List String := env.generatedQueries.map (·.query)
  let gen1 : List String := st.allQueriesGenerated ++ queries
  let calls1 : List QueryGenCall := st.queryGenCalls ++ [orchestratorQueryGenCall project]
  let st : LoopState := { st with allQueriesGenerated := gen1, queryGenCalls := calls1 }
  let searchResponses : List (String × SearchResponse) := env.searchResponses
  let exec1 : List String := st.allQueriesExecuted ++ searchResponses.map (·.1)
  let st : LoopState := { st with allQueriesExecuted := exec1 }
  let limitedResults : List UrlMeta := iterationCandidates project env st.processedUrlsSet
  if limitedResults.isEmpty then (st, true)
  else
    let processed1 : List String :=
      limitedResults.foldl (fun s r => setAdd s (simpleNormalize r.url)) st.processedUrlsSet
    let st : LoopState := { st with processedUrlsSet := processed1 }
    let fetchUrls : List String := (resultsToFetchOf env limitedResults).map (·.url)
    let extractedContents : List ExtractedContent := extractedContentsOf env limitedResults
    let trace1 : List String := st.fetchedUrlsTrace ++ fetchUrls
    let fetched1 : Nat := st.totalUrlsFetched + extractedContents.length
    let st : LoopState := { st with fetchedUrlsTrace := trace1, totalUrlsFetched := fetched1 }
    let successfulContents : List ExtractedContent := successfulContentsOf env limitedResults
    let succ1 : Nat := st.totalUrlsSuccessful + successfulContents.length
    let st : LoopState := { st with totalUrlsSuccessful := succ1 }
    if successfulContents.isEmpty then (st, false)
    else
      let filteredContents : List ExtractedContent :=
        filteredContentsOf project successfulContents
      if filteredContents.isEmpty then (st, false)
      else
        let relevantVerdicts : List RelevancyResult := relevantVerdictsOf env filteredContents
        let newRecords : List SearchResultRec :=
          newRecordsOf searchResponses searchEngineName nowMs filteredContents relevantVerdicts
        let acc1 : List SearchResultRec := st.allRelevantResults ++ newRecords
        let perf1 : List (String × Nat × Nat) :=
          recordQueryPerformance searchResponses relevantVerdicts st.queryPerformanceMap
        let st : LoopState := { st with allRelevantResults := acc1, queryPerformanceMap := perf1 }
        (st, decide (minResults ≤ st.allRelevantResults.length))

/-- The while loop of the orchestrator.  The fuel argument carries the
remaining admissible iterations, so the loop invoked with fuel
maxIterations and iteration counter 1 matches the source condition
iteration less-or-equal maxIterations.  Returns the final state, the
final value of the iteration counter, and whether the loop exited through
a break. -/
def researchLoop (project : Project) (env : RunEnv) (minResults nowMs : Nat) :
    Nat → Nat → LoopState → LoopState × Nat × Bool
  | 0, iteration, st => (st, iteration, false)
  | fuel + 1, iteration, st =>
    let step := iterationBody project (env.iter iteration) minResults nowMs env.searchEngineName st
    if step.2 then (step.1, iteration, true)
    else researchLoop project env minResults nowMs fuel (iteration + 1) step.1

/-- Stable insertion of x into a list sorted by key descending: x goes
before the first element with a strictly smaller key, hence after every
element with an equal key. -/
def insertDescBy {α : Type} (key : α → Int) (x : α) : List α → List α
  | [] => [x]
  | y :: ys => if key y < key x then x :: y :: ys else y :: insertDescBy key x ys

/-- Stable sort by key descending, the model of the JavaScript stable
Array.sort with comparator subtracting relevancy scores. -/
def sortDescBy {α : Type} (key : α → Int) (l : List α) : List α :=
  l.foldl (fun acc x => insertDescBy key x acc) []

/-- Post-loop ranking: sort accumulated results by relevancy score
descending and truncate to maxResults (step 8). -/
def finalizeResults (l : List SearchResultRec) (maxResults : Nat) : List SearchResultRec :=
  (sortDescBy (·.relevancyScore) l).take maxResults

/-- Fields of the project document written at the end of a run. -/
structure ProjectUpdate where
  lastRunAt : Option Nat
  nextRunAt : Option Int
  status : String
  lastError : Option String
  updatedAt : Nat
deriving DecidableEq

/-- Run statistics persisted in the delivery log. -/
structure DeliveryStats where
  totalResults : Nat
  includedResults : Nat
  averageRelevancyScore : Int
  searchQueriesUsed : Nat
  iterationsRequired : Nat
  urlsFetched : Nat
  urlsSuccessful : Nat
deriving DecidableEq

/-- Structured outcome returned to the caller. -/
structure ResearchResult where
  success : Bool
  relevantResults : List SearchResultRec
  totalResultsAnalyzed : Nat
  iterationsUsed : Nat
  queriesGenerated : List String
  queriesExecuted : List String
  urlsFetched : Nat
  urlsSuccessful : Nat
  urlsRelevant : Nat
  report : Option CompiledReport
  error : Option String

/-- Everything a run produces in the model: the returned result plus the
recorded persistence effects and call traces. -/
structure RunOutcome where
  result : ResearchResult
  projectUpdate : Option ProjectUpdate
  historyUpdateUrls : Option (List ProcessedUrl)
  historyUpdateQueryStats : Option (List (String × Nat × Nat))
  deliveryStats : Option DeliveryStats
  reportCalls : List (List ResultForReport)
  fetchedUrls : List String
  queryGenCalls : List QueryGenCall
  accumulatedResults : List SearchResultRec
  processedUrlsFinal : List String
  stoppedEarly : Bool

/-- Error message thrown on a frequency violation. -/
def frequencyErrorMessage (lastRunAt : Nat) : String :=
  "Project cannot be run more than once per day. Last run: " ++ toISOString lastRunAt

/-- Model of executeResearchForProject.  The project and its search
history are the loaded documents; providers and the extractor are the
environment; nowMs is the clock.  The frequency-violation throw is the
modelled expected-failure path: it is caught by the top-level handler,
which writes an error status onto the project and returns a failed
result. -/
def executeResearchForProject (project : Project) (history : List ProcessedUrl)
    (opts : ResearchOptions) (env : RunEnv) (nowMs : Nat) : RunOutcome :=
  let startedAt := nowMs
  let maxIterations := jsOrNat opts.maxIterations 3
  if !opts.ignoreFrequencyCheck
      && !validateFrequency project.frequency project.lastRunAt nowMs then
    let msg := frequencyErrorMessage (project.lastRunAt.getD 0)
    { result :=
        { success := false, relevantResults := [], totalResultsAnalyzed := 0
          iterationsUsed := 0, queriesGenerated := [], queriesExecuted := []
          urlsFetched := 0, urlsSuccessful := 0, urlsRelevant := 0
          report := none, error := some msg }
      projectUpdate := some
        { lastRunAt := some startedAt, nextRunAt := none, status := "error"
          lastError := some msg, updatedAt := nowMs }
      historyUpdateUrls := none, historyUpdateQueryStats := none
      deliveryStats := none, reportCalls := [], fetchedUrls := []
      queryGenCalls := [], accumulatedResults := [], processedUrlsFinal := []
      stoppedEarly := false }
  else
    let minResults := jsOrNat opts.minResults project.settings.minResults
    let maxResults := jsOrNat opts.maxResults project.settings.maxResults
    let init : LoopState :=
      { processedUrlsSet := history.map (·.normalizedUrl)
        allRelevantResults := [], totalUrlsFetched := 0, totalUrlsSuccessful := 0
        allQueriesGenerated := [], allQueriesExecuted := []
        queryPerformanceMap := [], fetchedUrlsTrace := [], queryGenCalls := [] }
    let final := researchLoop project env minResults nowMs maxIterations 1 init
    let st := final.1
    let iteration := final.2.1
    let stopped := final.2.2
    let sortedResults := finalizeResults st.allRelevantResults maxResults
    let reportAndCalls :
        Option CompiledReport × List (List ResultForReport) :=
      if sortedResults.isEmpty then (none, [])
      else
        let resultsForReport := sortedResults.map
          (fun r => ResultForReport.mk r.url r.title r.snippet r.relevancyScore)
        (some (env.compileReport resultsForReport), [resultsForReport])
    let report := reportAndCalls.1
    let deliveryStats :=
      match report with
      | some rep =>
        if sortedResults.isEmpty then none
        else some
          { totalResults := st.allRelevantResults.length
            includedResults := sortedResults.length
            averageRelevancyScore := rep.averageScore
            searchQueriesUsed := st.allQueriesExecuted.length
            iterationsRequired := iteration
            urlsFetched := st.totalUrlsFetched
            urlsSuccessful := st.totalUrlsSuccessful }
      | none => none
    let newProcessedUrls := sortedResults.map fun r =>
      ProcessedUrl.mk r.url r.normalizedUrl r.fetchedAt 1 r.relevancyScore true
    let nextRunAt := calculateNextRunAt project.frequency project.deliveryHours
      project.deliveryMinutes project.tzOffsetMs (some startedAt) startedAt
    { result :=
        { success := true
          relevantResults := sortedResults
          totalResultsAnalyzed := st.allRelevantResults.length
          iterationsUsed := iteration
          queriesGenerated := st.allQueriesGenerated
          queriesExecuted := st.allQueriesExecuted
          urlsFetched := st.totalUrlsFetched
          urlsSuccessful := st.totalUrlsSuccessful
          urlsRelevant := st.allRelevantResults.length
          report := report, error := none }
      projectUpdate := some
        { lastRunAt := some startedAt, nextRunAt := some nextRunAt
          status := "active", lastError := none, updatedAt := nowMs }
      historyUpdateUrls := some newProcessedUrls
      historyUpdateQueryStats := some st.queryPerformanceMap
      deliveryStats := deliveryStats
      reportCalls := reportAndCalls.2
      fetchedUrls := st.fetchedUrlsTrace
      queryGenCalls := st.queryGenCalls
      accumulatedResults := st.allRelevantResults
      processedUrlsFinal := st.processedUrlsSet
      stoppedEarly := stopped }

/-! ## Properties of the stable descending sort -/

theorem insertDescBy_perm {α : Type} (key : α → Int) (x : α) (l : List α) :
    (insertDescBy key x l).Perm (x :: l) := by
  induction l with
  | nil => simp [insertDescBy]
  | cons y ys ih =>
    simp only [insertDescBy]
    split
    · exact List.Perm.refl _
    · exact (List.Perm.cons y ih).trans (List.Perm.swap x y ys)

theorem sortDescBy_foldl_perm {α : Type} (key : α → Int) :
    ∀ (l acc : List α), (l.foldl (fun a x => insertDescBy key x a) acc).Perm (acc ++ l) := by
  intro l
  induction l with
  | nil => intro acc; simp
  | cons x xs ih =>
    intro acc
    have h1 := ih (insertDescBy key x acc)
    have h2 : (insertDescBy key x acc ++ xs).Perm (acc ++ x :: xs) := by
      have := (insertDescBy_perm key x acc).append_right xs
      exact this.trans List.perm_middle.symm
    simpa [List.foldl_cons] using h1.trans h2

theorem sortDescBy_perm {α : Type} (key : α → Int) (l : List α) :
    (sortDescBy key l).Perm l := by
  simpa [sortDescBy] using sortDescBy_foldl_perm key l []

theorem insertDescBy_pairwise {α : Type} (key : α → Int) (x : α) (l : List α)
    (h : l.Pairwise (fun a b => key b ≤ key a)) :
    (insertDescBy key x l).Pairwise (fun a b => key b ≤ key a) := by
  induction l with
  | nil => simp [insertDescBy]
  | cons y ys ih =>
    rw [List.pairwise_cons] at h
    simp only [insertDescBy]
    split
    · rename_i hlt
      refine List.pairwise_cons.mpr ⟨?_, List.pairwise_cons.mpr h⟩
      intro b hb
      rcases List.mem_cons.mp hb with hb | hb
      · subst hb; exact le_of_lt hlt
      · exact le_trans (h.1 b hb) (le_of_lt hlt)
    · rename_i hnlt
      refine List.pairwise_cons.mpr ⟨?_, ih h.2⟩
      intro b hb
      have hb2 := (insertDescBy_perm key x ys).mem_iff.mp hb
      rcases List.mem_cons.mp hb2 with hb2 | hb2
      · subst hb2; exact le_of_not_lt hnlt
      · exact h.1 b hb2

theorem sortDescBy_foldl_pairwise {α : Type} (key : α → Int) :
    ∀ (l acc : List α), acc.Pairwise (fun a b => key b ≤ key a) →
      (l.foldl (fun a x => insertDescBy key x a) acc).Pairwise (fun a b => key b ≤ key a) := by
  intro l
  induction l with
  | nil => intro acc h; simpa using h
  | cons x xs ih =>
    intro acc h
    simpa [List.foldl_cons] using ih (insertDescBy key x acc) (insertDescBy_pairwise key x acc h)

theorem sortDescBy_pairwise {α : Type} (key : α → Int) (l : List α) :
    (sortDescBy key l).Pairwise (fun a b => key b ≤ key a) := by
  simpa [sortDescBy] using sortDescBy_foldl_pairwise key l [] List.Pairwise.nil

/-! ## Control-flow lemmas about the iteration loop -/

theorem researchLoop_it_le (project : Project) (env : RunEnv) (minResults nowMs : Nat) :
    ∀ (fuel it : Nat) (st : LoopState),
      it ≤ (researchLoop project env minResults nowMs fuel it st).2.1 := by
  intro fuel
  induction fuel with
  | zero => intro it st; simp [researchLoop]
  | succ f ih =>
    intro it st
    simp only [researchLoop]
    split
    · exact le_refl it
    · exact le_trans (Nat.le_succ it) (ih (it + 1) _)

theorem researchLoop_exhaust_iff (project : Project) (env : RunEnv) (minResults nowMs : Nat) :
    ∀ (fuel it : Nat) (st : LoopState),
      ((researchLoop project env minResults nowMs fuel it st).2.2 = false →
        (researchLoop project env minResults nowMs fuel it st).2.1 = it + fuel) ∧
      ((researchLoop project env minResults nowMs fuel it st).2.2 = true →
        (researchLoop project env minResults nowMs fuel it st).2.1 < it + fuel) := by
  intro fuel
  induction fuel with
  | zero =>
    intro it st
    constructor
    · intro _; simp [researchLoop]
    · intro h; simp [researchLoop] at h
  | succ f ih =>
    intro it st
    simp only [researchLoop]
    split
    · constructor
      · intro h; simp at h
      · intro _; simp
    · have h2 := ih (it + 1) ((iterationBody project (env.iter it) minResults nowMs env.searchEngineName st).1)
      constructor
      · intro h; have := h2.1 h; omega
      · intro h; have := h2.2 h; omega

theorem researchLoop_halts_at_entry_iff (project : Project) (env : RunEnv)
    (minResults nowMs fuel it : Nat) (st : LoopState) :
    (researchLoop project env minResults nowMs (fuel + 1) it st).2.1 = it ↔
      (iterationBody project (env.iter it) minResults nowMs env.searchEngineName st).2 = true := by
  simp only [researchLoop]
  constructor
  · intro h
    by_contra hb
    rw [Bool.not_eq_true] at hb
    rw [if_neg (by simp [hb])] at h
    have := researchLoop_it_le project env minResults nowMs fuel (it + 1)
      ((iterationBody project (env.iter it) minResults nowMs env.searchEngineName st).1)
    omega
  · intro h
    rw [if_pos h]

theorem iterationBody_halt_iff (project : Project) (env : IterEnv) (minResults nowMs : Nat)
    (engName : String) (st : LoopState) :
    (iterationBody project env minResults nowMs engName st).2 = true ↔
      (iterationCandidates project env st.processedUrlsSet = [] ∨
        (successfulContentsOf env (iterationCandidates project env st.processedUrlsSet) ≠ [] ∧
          filteredContentsOf project
            (successfulContentsOf env (iterationCandidates project env st.processedUrlsSet)) ≠ [] ∧
          minResults ≤ st.allRelevantResults.length +
            (newRecordsOf env.searchResponses engName nowMs
              (filteredContentsOf project
                (successfulContentsOf env (iterationCandidates project env st.processedUrlsSet)))
              (relevantVerdictsOf env
                (filteredContentsOf project
                  (successfulContentsOf env
                    (iterationCandidates project env st.processedUrlsSet))))).length)) := by
  simp only [iterationBody]
  split_ifs with h1 h2 h3
  · simp_all [List.isEmpty_iff]
  · simp_all [List.isEmpty_iff]
  · simp_all [List.isEmpty_iff]
  · simp_all [List.isEmpty_iff, List.length_append]

/-- C10: if the iteration loop terminates by exhausting the iteration cap
(the while condition fails) rather than by an early break, the returned
iterationsUsed, and the iterationsRequired persisted in the delivery-log
statistics, equal maxIterations + 1, one more than the number of
iterations executed; iterationsUsed is at most maxIterations only for
runs that exit via an early break. -/
theorem C10_cap_exhaustion_iterations (project : Project) (history : List ProcessedUrl)
    (opts : ResearchOptions) (env : RunEnv) (nowMs : Nat)
    (hsucc : (executeResearchForProject project history opts env nowMs).result.success = true) :
    ((executeResearchForProject project history opts env nowMs).stoppedEarly = false →
      (executeResearchForProject project history opts env nowMs).result.iterationsUsed
        = jsOrNat opts.maxIterations 3 + 1) ∧
    ((executeResearchForProject project history opts env nowMs).stoppedEarly = true →
      (executeResearchForProject project history opts env nowMs).result.iterationsUsed
        ≤ jsOrNat opts.maxIterations 3) ∧
    (∀ s, (executeResearchForProject project history opts env nowMs).deliveryStats = some s →
      s.iterationsRequired
        = (executeResearchForProject project history opts env nowMs).result.iterationsUsed) := by
  by_cases hfreq : (!opts.ignoreFrequencyCheck
      && !validateFrequency project.frequency project.lastRunAt nowMs) = true
  · exfalso
    simp [executeResearchForProject, hfreq] at hsucc
  · rw [Bool.not_eq_true] at hfreq
    have hloop := researchLoop_exhaust_iff project env
      (jsOrNat opts.minResults project.settings.minResults) nowMs
      (jsOrNat opts.maxIterations 3) 1
      { processedUrlsSet := history.map (·.normalizedUrl)
        allRelevantResults := [], totalUrlsFetched := 0, totalUrlsSuccessful := 0
        allQueriesGenerated := [], allQueriesExecuted := []
        queryPerformanceMap := [], fetchedUrlsTrace := [], queryGenCalls := [] }
    simp only [executeResearchForProject, hfreq, Bool.false_eq_true, if_false]
    refine ⟨?_, ?_, ?_⟩
    · intro h
      have := hloop.1 h
      omega
    · intro h
      have := hloop.2 h
      omega
    · intro s hs
      split at hs
      · rename_i rep hrep
        split at hs
        · exact absurd hs (by simp)
        · rw [Option.some_inj] at hs
          subst hs
          rfl
      · exact absurd hs (by simp)

/-- Project used by the cap-exhaustion witness run: minResults 5 is never
reached because the analysis rejects everything. -/
def c10Project : Project :=
  { description := "g", frequency := .daily, deliveryHours := 9, deliveryMinutes := 0
    tzOffsetMs := 0, lastRunAt := none, requiredKeywords := [], excludedKeywords := []
    dateRangePreference := none
    settings := { relevancyThreshold := 60, minResults := 5, maxResults := 3 } }

/-- Environment whose every iteration finds one fresh URL that extracts
successfully but is judged irrelevant, so the loop always continues. -/
def c10Env : RunEnv :=
  { iter := fun it =>
      { generatedQueries := [⟨"q"⟩]
        searchResponses := [("q", ⟨[⟨"https://a.com/" ++ Nat.repr it, "t", "d", ""⟩]⟩)]
        filterResult := none
        extract := fun u =>
          { url := u, normalizedUrl := u, title := "t", snippet := "s", fullContent := ""
            publishedDate := "", fetchStatus := "success", fetchedAt := 0 }
        analyze := fun l => l.map fun c => ⟨c.url, 10, "r", false⟩ }
    compileReport := fun l => ⟨"", "", "", 0, l.length⟩
    searchEngineName := "Brave" }

/-- Witness for C10: a concrete successful run that exhausts the default
cap of 3 iterations and reports iterationsUsed 4. -/
theorem C10_cap_exhaustion_iterations_witness :
    (executeResearchForProject c10Project [] {} c10Env 0).result.success = true ∧
    (((executeResearchForProject c10Project [] {} c10Env 0).stoppedEarly = false →
      (executeResearchForProject c10Project [] {} c10Env 0).result.iterationsUsed
        = jsOrNat ({} : ResearchOptions).maxIterations 3 + 1) ∧
    ((executeResearchForProject c10Project [] {} c10Env 0).stoppedEarly = true →
      (executeResearchForProject c10Project [] {} c10Env 0).result.iterationsUsed
        ≤ jsOrNat ({} : ResearchOptions).maxIterations 3) ∧
    (∀ s, (executeResearchForProject c10Project [] {} c10Env 0).deliveryStats = some s →
      s.iterationsRequired
        = (executeResearchForProject c10Project [] {} c10Env 0).result.iterationsUsed)) :=
  ⟨by decide, C10_cap_exhaustion_iterations c10Project [] {} c10Env 0 (by decide)⟩

/-- C4 (amended): the loop stops at the iteration it is currently on
exactly when the candidate list after deduplication, excluded-keyword
pre-filtering and the 25-cap is empty, or when extraction and keyword
filtering both left survivors and the accumulated relevant-result count
(including this iterations accepted records) reached minResults;
iterations whose candidates all fail extraction or the post-extraction
keyword filters are non-terminal. -/
theorem C4_amended_stopping_rule (project : Project) (env : RunEnv)
    (minResults nowMs fuel it : Nat) (st : LoopState) :
    (researchLoop project env minResults nowMs (fuel + 1) it st).2.1 = it ↔
      (iterationCandidates project (env.iter it) st.processedUrlsSet = [] ∨
        (successfulContentsOf (env.iter it)
            (iterationCandidates project (env.iter it) st.processedUrlsSet) ≠ [] ∧
          filteredContentsOf project
            (successfulContentsOf (env.iter it)
              (iterationCandidates project (env.iter it) st.processedUrlsSet)) ≠ [] ∧
          minResults ≤ st.allRelevantResults.length +
            (newRecordsOf (env.iter it).searchResponses env.searchEngineName nowMs
              (filteredContentsOf project
                (successfulContentsOf (env.iter it)
                  (iterationCandidates project (env.iter it) st.processedUrlsSet)))
              (relevantVerdictsOf (env.iter it)
                (filteredContentsOf project
                  (successfulContentsOf (env.iter it)
                    (iterationCandidates project (env.iter it) st.processedUrlsSet))))).length)) :=
  (researchLoop_halts_at_entry_iff project env minResults nowMs fuel it st).trans
    (iterationBody_halt_iff project (env.iter it) minResults nowMs env.searchEngineName st)

/-- Project for the C4 counterexample: one excluded keyword that matches
the only search hit. -/
def c4Project : Project :=
  { description := "g", frequency := .daily, deliveryHours := 9, deliveryMinutes := 0
    tzOffsetMs := 0, lastRunAt := none, requiredKeywords := [], excludedKeywords := ["spam"]
    dateRangePreference := none
    settings := { relevancyThreshold := 60, minResults := 1, maxResults := 3 } }

/-- Environment for the C4 counterexample: every iteration finds the same
single fresh URL whose title carries the excluded keyword. -/
def c4Env : RunEnv :=
  { iter := fun _ =>
      { generatedQueries := [⟨"q"⟩]
        searchResponses := [("q", ⟨[⟨"https://a.com/x", "Spam Title", "d", ""⟩]⟩)]
        filterResult := none
        extract := fun u =>
          { url := u, normalizedUrl := u, title := "t", snippet := "s", fullContent := ""
            publishedDate := "", fetchStatus := "success", fetchedAt := 0 }
        analyze := fun l => l.map fun c => ⟨c.url, 90, "r", true⟩ }
    compileReport := fun l => ⟨"", "", "", 0, l.length⟩
    searchEngineName := "Brave" }

/-- Counterexample to C4 as stated: the first iteration does find a new
unique URL, every candidate is eliminated by (pre-extraction) keyword
filtering, yet the loop breaks instead of advancing to iteration 2 of the
3 permitted. -/
theorem C4_counterexample :
    iterationUniqueResults (c4Env.iter 1) [] ≠ [] ∧
    iterationCandidates c4Project (c4Env.iter 1) [] = [] ∧
    (executeResearchForProject c4Project [] {} c4Env 0).result.iterationsUsed = 1 ∧
    (executeResearchForProject c4Project [] {} c4Env 0).stoppedEarly = true := by
  refine ⟨by decide, by decide, by decide, by decide⟩

/-- C2 (amended): a frequency violation makes the run fail with the
distinct message carrying the ISO rendering of the last-run timestamp,
and no research work happens (no extraction, no report, no history
update); however, the top-level error handler does mutate the project
record, writing status error, the message into lastError, the run start
into lastRunAt, and updatedAt. -/
theorem C2_amended_frequency_violation (project : Project) (history : List ProcessedUrl)
    (opts : ResearchOptions) (env : RunEnv) (nowMs t : Nat)
    (hIgn : opts.ignoreFrequencyCheck = false)
    (hLast : project.lastRunAt = some t)
    (hFreq : validateFrequency project.frequency project.lastRunAt nowMs = false) :
    (executeResearchForProject project history opts env nowMs).result.success = false ∧
    (executeResearchForProject project history opts env nowMs).result.error =
      some ("Project cannot be run more than once per day. Last run: " ++ toISOString t) ∧
    (executeResearchForProject project history opts env nowMs).fetchedUrls = [] ∧
    (executeResearchForProject project history opts env nowMs).reportCalls = [] ∧
    (executeResearchForProject project history opts env nowMs).historyUpdateUrls = none ∧
    (executeResearchForProject project history opts env nowMs).projectUpdate =
      some { lastRunAt := some nowMs, nextRunAt := none, status := "error"
             lastError := some ("Project cannot be run more than once per day. Last run: "
               ++ toISOString t)
             updatedAt := nowMs } := by
  have hFreq2 : validateFrequency project.frequency (some t) nowMs = false := by
    rw [← hLast]; exact hFreq
  simp [executeResearchForProject, hIgn, hFreq2, hLast, frequencyErrorMessage]

/-- Project for the C2 counterexample and witness runs: last ran at the
epoch, queried one hour later. -/
def c2Project : Project :=
  { description := "g", frequency := .daily, deliveryHours := 9, deliveryMinutes := 0
    tzOffsetMs := 0, lastRunAt := some 0, requiredKeywords := [], excludedKeywords := []
    dateRangePreference := none
    settings := { relevancyThreshold := 60, minResults := 1, maxResults := 3 } }

/-- Environment for the C2 runs; it is never consulted because the run
fails before the loop. -/
def c2Env : RunEnv :=
  { iter := fun _ =>
      { generatedQueries := [], searchResponses := [], filterResult := none
        extract := fun u =>
          { url := u, normalizedUrl := u, title := "", snippet := "", fullContent := ""
            publishedDate := "", fetchStatus := "error", fetchedAt := 0 }
        analyze := fun _ => [] }
    compileReport := fun l => ⟨"", "", "", 0, l.length⟩
    searchEngineName := "Brave" }

/-- Counterexample to C2 as stated: on a frequency violation the project
record is mutated after all - the error handler writes status error,
lastError, lastRunAt and updatedAt. -/
theorem C2_counterexample :
    (executeResearchForProject c2Project [] {} c2Env 3600000).projectUpdate ≠ none ∧
    (executeResearchForProject c2Project [] {} c2Env 3600000).projectUpdate =
      some { lastRunAt := some 3600000, nextRunAt := none, status := "error"
             lastError := some ("Project cannot be run more than once per day. Last run: "
               ++ "1970-01-01T00:00:00.000Z")
             updatedAt := 3600000 } := by
  refine ⟨by decide, by decide⟩

/-- Witness for C2 (amended) at the concrete violated run. -/
theorem C2_amended_frequency_violation_witness :
    (({} : ResearchOptions).ignoreFrequencyCheck = false ∧
      c2Project.lastRunAt = some 0 ∧
      validateFrequency c2Project.frequency c2Project.lastRunAt 3600000 = false) ∧
    ((executeResearchForProject c2Project [] {} c2Env 3600000).result.success = false ∧
    (executeResearchForProject c2Project [] {} c2Env 3600000).result.error =
      some ("Project cannot be run more than once per day. Last run: " ++ toISOString 0) ∧
    (executeResearchForProject c2Project [] {} c2Env 3600000).fetchedUrls = [] ∧
    (executeResearchForProject c2Project [] {} c2Env 3600000).reportCalls = [] ∧
    (executeResearchForProject c2Project [] {} c2Env 3600000).historyUpdateUrls = none ∧
    (executeResearchForProject c2Project [] {} c2Env 3600000).projectUpdate =
      some { lastRunAt := some 3600000, nextRunAt := none, status := "error"
             lastError := some ("Project cannot be run more than once per day. Last run: "
               ++ toISOString 0)
             updatedAt := 3600000 }) :=
  ⟨⟨rfl, rfl, by decide⟩,
    C2_amended_frequency_violation c2Project [] {} c2Env 3600000 0 rfl rfl (by decide)⟩

/-- C3 (amended): at the end of a successful run the Search History is
updated only with the final included results - the sorted, truncated
relevant-result set, every entry flagged wasIncluded with timesFound 1 -
so the persisted update has at most maxResults entries; candidates that
were capped, filtered out or merely fetched are excluded from the current
run via the in-memory processed set only and are not persisted. -/
theorem C3_amended_history_only_included (project : Project) (history : List ProcessedUrl)
    (opts : ResearchOptions) (env : RunEnv) (nowMs : Nat)
    (hfreq : (!opts.ignoreFrequencyCheck
      && !validateFrequency project.frequency project.lastRunAt nowMs) = false) :
    (executeResearchForProject project history opts env nowMs).historyUpdateUrls =
      some ((executeResearchForProject project history opts env nowMs).result.relevantResults.map
        (fun r => ProcessedUrl.mk r.url r.normalizedUrl r.fetchedAt 1 r.relevancyScore true)) ∧
    (∀ p ∈ ((executeResearchForProject project history opts env nowMs).historyUpdateUrls.getD []),
      p.wasIncluded = true ∧ p.timesFound = 1) ∧
    ((executeResearchForProject project history opts env nowMs).historyUpdateUrls.getD []).length
      ≤ jsOrNat opts.maxResults project.settings.maxResults := by
  refine ⟨?_, ?_, ?_⟩
  · simp [executeResearchForProject, hfreq]
  · simp only [executeResearchForProject, hfreq, Bool.false_eq_true, if_false,
      Option.getD_some, List.mem_map]
    rintro p ⟨r, _, rfl⟩
    exact ⟨rfl, rfl⟩
  · simp only [executeResearchForProject, hfreq, Bool.false_eq_true, if_false,
      Option.getD_some, List.length_map]
    exact le_trans (List.length_take_le _ _) (le_refl _)

/-- Project for the C3 counterexample and witness runs. -/
def c3Project : Project :=
  { description := "g", frequency := .daily, deliveryHours := 9, deliveryMinutes := 0
    tzOffsetMs := 0, lastRunAt := none, requiredKeywords := [], excludedKeywords := []
    dateRangePreference := none
    settings := { relevancyThreshold := 60, minResults := 1, maxResults := 3 } }

/-- Environment for the C3 runs: two fresh URLs; the LLM pre-fetch filter
drops the second, so it is marked processed but never analyzed; the first
is extracted and judged relevant. -/
def c3Env : RunEnv :=
  { iter := fun _ =>
      { generatedQueries := [⟨"q"⟩]
        searchResponses := [("q", ⟨[⟨"https://a.com/x", "ta", "da", ""⟩,
                                    ⟨"https://b.com/y", "tb", "db", ""⟩]⟩)]
        filterResult := some [⟨"https://a.com/x", true⟩, ⟨"https://b.com/y", false⟩]
        extract := fun u =>
          { url := u, normalizedUrl := normalizeUrl u, title := "t", snippet := "s"
            fullContent := "", publishedDate := "", fetchStatus := "success", fetchedAt := 7 }
        analyze := fun l => l.map fun c => ⟨c.url, 90, "r", true⟩ }
    compileReport := fun l => ⟨"", "", "", 90, l.length⟩
    searchEngineName := "Brave" }

/-- Counterexample to C3 as stated: the second URL was processed during
the run (it is in the final in-memory processed set, having been capped
into the candidate list and then dropped unanalyzed by the pre-fetch
filter), yet the persisted Search History update does not contain it in
any form. -/
theorem C3_counterexample :
    simpleNormalize "https://b.com/y"
      ∈ (executeResearchForProject c3Project [] {} c3Env 0).processedUrlsFinal ∧
    (((executeResearchForProject c3Project [] {} c3Env 0).historyUpdateUrls.getD []).all
      (fun p => p.url ≠ "https://b.com/y" ∧ p.normalizedUrl ≠ simpleNormalize "https://b.com/y"
        ∧ p.normalizedUrl ≠ normalizeUrl "https://b.com/y")) = true ∧
    ((executeResearchForProject c3Project [] {} c3Env 0).historyUpdateUrls.getD []).length = 1 := by
  refine ⟨by decide, by decide, by decide⟩

/-- Witness for C3 (amended) at the concrete run. -/
theorem C3_amended_history_only_included_witness :
    ((!({} : ResearchOptions).ignoreFrequencyCheck
      && !validateFrequency c3Project.frequency c3Project.lastRunAt 0) = false) ∧
    ((executeResearchForProject c3Project [] {} c3Env 0).historyUpdateUrls =
      some ((executeResearchForProject c3Project [] {} c3Env 0).result.relevantResults.map
        (fun r => ProcessedUrl.mk r.url r.normalizedUrl r.fetchedAt 1 r.relevancyScore true)) ∧
    (∀ p ∈ ((executeResearchForProject c3Project [] {} c3Env 0).historyUpdateUrls.getD []),
      p.wasIncluded = true ∧ p.timesFound = 1) ∧
    ((executeResearchForProject c3Project [] {} c3Env 0).historyUpdateUrls.getD []).length
      ≤ jsOrNat ({} : ResearchOptions).maxResults c3Project.settings.maxResults) :=
  ⟨by decide, C3_amended_history_only_included c3Project [] {} c3Env 0 (by decide)⟩

/-- C6 (amended): when zero results survive, the run does not call the
report provider at all, records no delivery statistics, and its result
carries no report whatsoever (there is no placeholder). -/
theorem C6_amended_no_results_skips_report (project : Project) (history : List ProcessedUrl)
    (opts : ResearchOptions) (env : RunEnv) (nowMs : Nat)
    (hfreq : (!opts.ignoreFrequencyCheck
      && !validateFrequency project.frequency project.lastRunAt nowMs) = false)
    (hempty : (executeResearchForProject project history opts env nowMs).result.relevantResults
      = []) :
    (executeResearchForProject project history opts env nowMs).reportCalls = [] ∧
    (executeResearchForProject project history opts env nowMs).result.report = none ∧
    (executeResearchForProject project history opts env nowMs).deliveryStats = none := by
  simp only [executeResearchForProject, hfreq, Bool.false_eq_true, if_false] at hempty ⊢
  simp [hempty]

/-- Project for the C6 runs. -/
def c6Project : Project :=
  { description := "g", frequency := .daily, deliveryHours := 9, deliveryMinutes := 0
    tzOffsetMs := 0, lastRunAt := none, requiredKeywords := [], excludedKeywords := []
    dateRangePreference := none
    settings := { relevancyThreshold := 60, minResults := 1, maxResults := 3 } }

/-- Environment for the C6 runs: the search returns nothing at all, so no
results ever accumulate. -/
def c6Env : RunEnv :=
  { iter := fun _ =>
      { generatedQueries := [⟨"q"⟩]
        searchResponses := [("q", ⟨[]⟩)]
        filterResult := none
        extract := fun u =>
          { url := u, normalizedUrl := u, title := "", snippet := "", fullContent := ""
            publishedDate := "", fetchStatus := "error", fetchedAt := 0 }
        analyze := fun _ => [] }
    compileReport := fun l => ⟨"placeholder", "", "", 0, l.length⟩
    searchEngineName := "Brave" }

/-- Counterexample to C6 as stated: a completed run with zero surviving
results carries no report at all - the report field is none, not a
minimal no-results placeholder. -/
theorem C6_counterexample :
    (executeResearchForProject c6Project [] {} c6Env 0).result.success = true ∧
    (executeResearchForProject c6Project [] {} c6Env 0).result.relevantResults = [] ∧
    (executeResearchForProject c6Project [] {} c6Env 0).result.report = none ∧
    (executeResearchForProject c6Project [] {} c6Env 0).reportCalls = [] := by
  refine ⟨by decide, by decide, by decide, by decide⟩

/-- Witness for C6 (amended) at the concrete empty run. -/
theorem C6_amended_no_results_skips_report_witness :
    (((!({} : ResearchOptions).ignoreFrequencyCheck
      && !validateFrequency c6Project.frequency c6Project.lastRunAt 0) = false) ∧
      (executeResearchForProject c6Project [] {} c6Env 0).result.relevantResults = []) ∧
    ((executeResearchForProject c6Project [] {} c6Env 0).reportCalls = [] ∧
    (executeResearchForProject c6Project [] {} c6Env 0).result.report = none ∧
    (executeResearchForProject c6Project [] {} c6Env 0).deliveryStats = none) :=
  ⟨⟨by decide, by decide⟩,
    C6_amended_no_results_skips_report c6Project [] {} c6Env 0 (by decide) (by decide)⟩

/-- C5: the returned relevantResults list is the accumulated
relevant-result list sorted by relevancy score descending and truncated
to maxResults: it is sorted non-increasingly, has min maxResults
(accumulated length) elements, splits the accumulated multiset into the
kept top block and a dropped block every member of which scores at most
every kept member, and with pairwise-distinct scores the kept block is
strictly decreasing. -/
theorem C5_sorted_truncated_top (project : Project) (history : List ProcessedUrl)
    (opts : ResearchOptions) (env : RunEnv) (nowMs : Nat)
    (hfreq : (!opts.ignoreFrequencyCheck
      && !validateFrequency project.frequency project.lastRunAt nowMs) = false) :
    (executeResearchForProject project history opts env nowMs).result.relevantResults =
      finalizeResults (executeResearchForProject project history opts env nowMs).accumulatedResults
        (jsOrNat opts.maxResults project.settings.maxResults) ∧
    ((executeResearchForProject project history opts env nowMs).result.relevantResults.Pairwise
      (fun a b => b.relevancyScore ≤ a.relevancyScore)) ∧
    (executeResearchForProject project history opts env nowMs).result.relevantResults.length =
      min (jsOrNat opts.maxResults project.settings.maxResults)
        (executeResearchForProject project history opts env nowMs).accumulatedResults.length ∧
    (∃ dropped,
      ((executeResearchForProject project history opts env nowMs).accumulatedResults).Perm
        ((executeResearchForProject project history opts env nowMs).result.relevantResults
          ++ dropped) ∧
      ∀ a ∈ (executeResearchForProject project history opts env nowMs).result.relevantResults,
        ∀ b ∈ dropped, b.relevancyScore ≤ a.relevancyScore) ∧
    (((executeResearchForProject project history opts env nowMs).accumulatedResults.Pairwise
        (fun a b => a.relevancyScore ≠ b.relevancyScore)) →
      (executeResearchForProject project history opts env nowMs).result.relevantResults.Pairwise
        (fun a b => b.relevancyScore < a.relevancyScore)) := by
  have hbase :
      (executeResearchForProject project history opts env nowMs).result.relevantResults =
        finalizeResults
          (executeResearchForProject project history opts env nowMs).accumulatedResults
          (jsOrNat opts.maxResults project.settings.maxResults) := by
    simp [executeResearchForProject, hfreq]
  set A := (executeResearchForProject project history opts env nowMs).accumulatedResults with hA
  set k := jsOrNat opts.maxResults project.settings.maxResults with hk
  have hsortperm := sortDescBy_perm (fun r : SearchResultRec => r.relevancyScore) A
  have hsortpw := sortDescBy_pairwise (fun r : SearchResultRec => r.relevancyScore) A
  refine ⟨hbase, ?_, ?_, ?_, ?_⟩
  · rw [hbase]
    exact hsortpw.sublist (List.take_sublist _ _)
  · rw [hbase]
    simp [finalizeResults, List.length_take, hsortperm.length_eq]
  · refine ⟨(sortDescBy (fun r : SearchResultRec => r.relevancyScore) A).drop k, ?_, ?_⟩
    · rw [hbase]
      calc A.Perm (sortDescBy (fun r : SearchResultRec => r.relevancyScore) A) := hsortperm.symm
        _ = _ := (List.take_append_drop k _).symm
    · rw [hbase]
      intro a ha b hb
      have hsplit := hsortpw
      rw [← List.take_append_drop k
        (sortDescBy (fun r : SearchResultRec => r.relevancyScore) A)] at hsplit
      exact (List.pairwise_append.mp hsplit).2.2 a ha b hb
  · intro hne
    rw [hbase]
    have hne2 : (sortDescBy (fun r : SearchResultRec => r.relevancyScore) A).Pairwise
        (fun a b => a.relevancyScore ≠ b.relevancyScore) :=
      (hsortperm.pairwise_iff (by intro a b h; exact h.symm)).mpr hne
    have hcomb := hsortpw.and hne2
    refine (hcomb.imp ?_).sublist (List.take_sublist _ _)
    intro a b hab
    exact lt_of_le_of_ne hab.1 (Ne.symm hab.2)

/-- Project for the C5 witness run: maxResults 5. -/
def c5Project : Project :=
  { description := "g", frequency := .daily, deliveryHours := 9, deliveryMinutes := 0
    tzOffsetMs := 0, lastRunAt := none, requiredKeywords := [], excludedKeywords := []
    dateRangePreference := none
    settings := { relevancyThreshold := 60, minResults := 1, maxResults := 5 } }

/-- Environment for the C5 witness run: ten fresh URLs, all extracted and
all relevant with pairwise-distinct scores 90 down to 81. -/
def c5Env : RunEnv :=
  { iter := fun _ =>
      { generatedQueries := [⟨"q"⟩]
        searchResponses := [("q", ⟨(List.range 10).map
          (fun i => ⟨"https://s.com/r" ++ Nat.repr i, "t", "d", ""⟩)⟩)]
        filterResult := none
        extract := fun u =>
          { url := u, normalizedUrl := u, title := "t", snippet := "s", fullContent := ""
            publishedDate := "", fetchStatus := "success", fetchedAt := 3 }
        analyze := fun l => l.enum.map fun p => ⟨p.2.url, 90 - (p.1 : Int), "r", true⟩ }
    compileReport := fun l => ⟨"", "", "", 0, l.length⟩
    searchEngineName := "Brave" }

/-- Witness for C5 at the ten-result run with distinct scores. -/
theorem C5_sorted_truncated_top_witness :
    ((!({} : ResearchOptions).ignoreFrequencyCheck
      && !validateFrequency c5Project.frequency c5Project.lastRunAt 0) = false) ∧
    ((executeResearchForProject c5Project [] {} c5Env 0).result.relevantResults =
      finalizeResults (executeResearchForProject c5Project [] {} c5Env 0).accumulatedResults
        (jsOrNat ({} : ResearchOptions).maxResults c5Project.settings.maxResults) ∧
    ((executeResearchForProject c5Project [] {} c5Env 0).result.relevantResults.Pairwise
      (fun a b => b.relevancyScore ≤ a.relevancyScore)) ∧
    (executeResearchForProject c5Project [] {} c5Env 0).result.relevantResults.length =
      min (jsOrNat ({} : ResearchOptions).maxResults c5Project.settings.maxResults)
        (executeResearchForProject c5Project [] {} c5Env 0).accumulatedResults.length ∧
    (∃ dropped,
      ((executeResearchForProject c5Project [] {} c5Env 0).accumulatedResults).Perm
        ((executeResearchForProject c5Project [] {} c5Env 0).result.relevantResults
          ++ dropped) ∧
      ∀ a ∈ (executeResearchForProject c5Project [] {} c5Env 0).result.relevantResults,
        ∀ b ∈ dropped, b.relevancyScore ≤ a.relevancyScore) ∧
    (((executeResearchForProject c5Project [] {} c5Env 0).accumulatedResults.Pairwise
        (fun a b => a.relevancyScore ≠ b.relevancyScore)) →
      (executeResearchForProject c5Project [] {} c5Env 0).result.relevantResults.Pairwise
        (fun a b => b.relevancyScore < a.relevancyScore))) :=
  ⟨by decide, C5_sorted_truncated_top c5Project [] {} c5Env 0 (by decide)⟩

theorem iterationBody_queryGenCalls (project : Project) (env : IterEnv)
    (minResults nowMs : Nat) (engName : String) (st : LoopState) :
    (iterationBody project env minResults nowMs engName st).1.queryGenCalls =
      st.queryGenCalls ++ [orchestratorQueryGenCall project] := by
  simp only [iterationBody]
  split_ifs <;> rfl

theorem researchLoop_queryGenCalls (project : Project) (env : RunEnv)
    (minResults nowMs : Nat) :
    ∀ (fuel it : Nat) (st : LoopState), ∃ k,
      (researchLoop project env minResults nowMs fuel it st).1.queryGenCalls =
        st.queryGenCalls ++ List.replicate k (orchestratorQueryGenCall project) := by
  intro fuel
  induction fuel with
  | zero => intro it st; exact ⟨0, by simp [researchLoop]⟩
  | succ f ih =>
    intro it st
    simp only [researchLoop]
    split
    · exact ⟨1, by
        simp [iterationBody_queryGenCalls project (env.iter it) minResults nowMs
          env.searchEngineName st]⟩
    · obtain ⟨k, hk⟩ := ih (it + 1)
        ((iterationBody project (env.iter it) minResults nowMs env.searchEngineName st).1)
    
      refine ⟨k + 1, ?_⟩
      rw [hk, iterationBody_queryGenCalls project (env.iter it) minResults nowMs
        env.searchEngineName st]
      simp [List.replicate_succ, List.append_assoc]

/-- C7: the orchestrator passes no iteration number to query generation.
Every generateSearchQueries call of a run carries the same arguments
(description, keyword context, count 5, focusRecent) with no iteration
field, the OpenAI provider adapter hardcodes iteration 1 when forwarding,
so the guidance actually rendered is empty, although the underlying
query-generation function would render nonempty broader-terms guidance
for iterations 2 and 3. -/
theorem C7_no_iteration_number_reaches_query_generation (project : Project)
    (history : List ProcessedUrl) (opts : ResearchOptions) (env : RunEnv) (nowMs : Nat) :
    (∃ k, (executeResearchForProject project history opts env nowMs).queryGenCalls =
      List.replicate k (orchestratorQueryGenCall project)) ∧
    iterationGuidance openAIProviderQueryGenIteration = "" ∧
    iterationGuidance 2 ≠ "" ∧
    iterationGuidance 3 ≠ "" := by
  refine ⟨?_, by decide, by decide, by decide⟩
  by_cases hfreq : (!opts.ignoreFrequencyCheck
      && !validateFrequency project.frequency project.lastRunAt nowMs) = true
  · exact ⟨0, by simp [executeResearchForProject, hfreq]⟩
  · rw [Bool.not_eq_true] at hfreq
    obtain ⟨k, hk⟩ := researchLoop_queryGenCalls project env
      (jsOrNat opts.minResults project.settings.minResults) nowMs
      (jsOrNat opts.maxIterations 3) 1
      { processedUrlsSet := history.map (·.normalizedUrl)
        allRelevantResults := [], totalUrlsFetched := 0, totalUrlsSuccessful := 0
        allQueriesGenerated := [], allQueriesExecuted := []
        queryPerformanceMap := [], fetchedUrlsTrace := [], queryGenCalls := [] }
    refine ⟨k, ?_⟩
    simp only [executeResearchForProject, hfreq, Bool.false_eq_true, if_false]
    simpa using hk

/-! ## Cross-run deduplication invariants -/

theorem dedup_foldl_not_processed (processed : List String) :
    ∀ (l : List UrlMeta) (acc : List (String × UrlMeta)) (kv : String × UrlMeta),
      kv ∈ l.foldl (dedupStep processed) acc →
        kv ∈ acc ∨ simpleNormalize kv.2.url ∉ processed := by
  intro l
  induction l with
  | nil => intro acc kv h; exact Or.inl h
  | cons x xs ih =>
    intro acc kv h
    simp only [List.foldl_cons] at h
    rcases ih _ kv h with h2 | h2
    · simp only [dedupStep] at h2
      split at h2
      · exact Or.inl h2
      · rename_i hcond
        rcases List.mem_append.mp h2 with h3 | h3
        · exact Or.inl h3
        · right
          have : kv = (simpleNormalize x.url, x) := by simpa using h3
          subst this
          intro hmem
          exact hcond (Or.inl hmem)
    · exact Or.inr h2

theorem iterationUniqueResults_not_processed (env : IterEnv) (processed : List String)
    (r : UrlMeta) (h : r ∈ iterationUniqueResults env processed) :
    simpleNormalize r.url ∉ processed := by
  simp only [iterationUniqueResults, List.mem_map] at h
  obtain ⟨kv, hkv, rfl⟩ := h
  rcases dedup_foldl_not_processed processed _ [] kv hkv with h2 | h2
  · exact absurd h2 (List.not_mem_nil kv)
  · exact h2

theorem excludedKwPreFilter_subset (kws : List String) (l : List UrlMeta) :
    ∀ r ∈ excludedKwPreFilter kws l, r ∈ l := by
  intro r h
  simp only [excludedKwPreFilter] at h
  split at h
  · exact h
  · exact List.mem_of_mem_filter h

theorem iterationCandidates_subset_unique (project : Project) (env : IterEnv)
    (processed : List String) :
    ∀ r ∈ iterationCandidates project env processed, r ∈ iterationUniqueResults env processed := by
  intro r h
  exact excludedKwPreFilter_subset _ _ r (List.mem_of_mem_take h)

theorem resultsToFetchOf_subset (env : IterEnv) (limited : List UrlMeta) :
    ∀ r ∈ resultsToFetchOf env limited, r ∈ limited := by
  intro r h
  simp only [resultsToFetchOf] at h
  split at h
  · exact List.mem_of_mem_filter h
  · exact h

theorem mem_foldl_setAdd (l : List UrlMeta) :
    ∀ (s : List String) (x : String), x ∈ s →
      x ∈ l.foldl (fun s r => setAdd s (simpleNormalize r.url)) s := by
  induction l with
  | nil => intro s x h; exact h
  | cons y ys ih =>
    intro s x h
    simp only [List.foldl_cons]
    refine ih _ x ?_
    simp only [setAdd]
    split
    · exact h
    · exact List.mem_append.mpr (Or.inl h)

theorem successfulContentsOf_url_mem (env : IterEnv) (limited : List UrlMeta)
    (hwf : ∀ u, (env.extract u).url = u) :
    ∀ c ∈ successfulContentsOf env limited, ∃ r ∈ limited, c.url = r.url := by
  intro c h
  have h2 : c ∈ extractedContentsOf env limited := List.mem_of_mem_filter h
  simp only [extractedContentsOf, List.mem_map] at h2
  obtain ⟨v, hv, rfl⟩ := h2
  obtain ⟨r, hr, rfl⟩ := hv
  exact ⟨r, resultsToFetchOf_subset env limited r hr, hwf r.url⟩

theorem filteredContentsOf_subset (project : Project) (l : List ExtractedContent) :
    ∀ c ∈ filteredContentsOf project l, c ∈ l := by
  intro c h
  simp only [filteredContentsOf] at h
  split at h
  · exact h
  · exact List.mem_of_mem_filter h

theorem newRecordsOf_url (sr : List (String × SearchResponse)) (eng : String) (now : Nat)
    (filtered : List ExtractedContent) (verdicts : List RelevancyResult) :
    ∀ rec ∈ newRecordsOf sr eng now filtered verdicts, ∃ c ∈ filtered, rec.url = c.url := by
  intro rec h
  simp only [newRecordsOf, List.mem_filterMap] at h
  obtain ⟨rr, _, hrr⟩ := h
  split at hrr
  · exact absurd hrr (by simp)
  · rename_i ec hec
    rw [Option.some_inj] at hrr
    subst hrr
    exact ⟨ec, List.mem_of_find?_eq_some hec, rfl⟩

theorem iterationBody_dedup_invariant (project : Project) (env : IterEnv)
    (minResults nowMs : Nat) (engName : String) (st : LoopState) (hist : List String)
    (hsub : ∀ x ∈ hist, x ∈ st.processedUrlsSet)
    (hwf : ∀ u, (env.extract u).url = u) :
    (∀ x ∈ hist, x ∈ (iterationBody project env minResults nowMs engName st).1.processedUrlsSet) ∧
    (∀ u ∈ (iterationBody project env minResults nowMs engName st).1.fetchedUrlsTrace,
      u ∈ st.fetchedUrlsTrace ∨ simpleNormalize u ∉ hist) ∧
    (∀ r ∈ (iterationBody project env minResults nowMs engName st).1.allRelevantResults,
      r ∈ st.allRelevantResults ∨ simpleNormalize r.url ∉ hist) := by
  have hcand : ∀ r ∈ iterationCandidates project env st.processedUrlsSet,
      simpleNormalize r.url ∉ hist := by
    intro r hr hmem
    exact iterationUniqueResults_not_processed env st.processedUrlsSet r
      (iterationCandidates_subset_unique project env st.processedUrlsSet r hr)
      (hsub _ hmem)
  have htrace : ∀ u ∈ (resultsToFetchOf env
      (iterationCandidates project env st.processedUrlsSet)).map (·.url),
      simpleNormalize u ∉ hist := by
    intro u hu
    obtain ⟨r, hr, rfl⟩ := List.mem_map.mp hu
    exact hcand r (resultsToFetchOf_subset env _ r hr)
  have hrec : ∀ rec ∈ newRecordsOf env.searchResponses engName nowMs
      (filteredContentsOf project
        (successfulContentsOf env (iterationCandidates project env st.processedUrlsSet)))
      (relevantVerdictsOf env
        (filteredContentsOf project
          (successfulContentsOf env (iterationCandidates project env st.processedUrlsSet)))),
      simpleNormalize rec.url ∉ hist := by
    intro rec hrecm
    obtain ⟨c, hc, hurl⟩ := newRecordsOf_url _ _ _ _ _ rec hrecm
    have hc2 := filteredContentsOf_subset project _ c hc
    obtain ⟨r, hr, hcu⟩ := successfulContentsOf_url_mem env _ hwf c hc2
    rw [hurl, hcu]
    exact hcand r hr
  simp only [iterationBody]
  split_ifs
  · exact ⟨hsub, fun u hu => Or.inl hu, fun r hr => Or.inl hr⟩
  · refine ⟨fun x hx => mem_foldl_setAdd _ _ x (hsub x hx), ?_, fun r hr => Or.inl hr⟩
    intro u hu
    rcases List.mem_append.mp hu with h | h
    · exact Or.inl h
    · exact Or.inr (htrace u h)
  · refine ⟨fun x hx => mem_foldl_setAdd _ _ x (hsub x hx), ?_, fun r hr => Or.inl hr⟩
    intro u hu
    rcases List.mem_append.mp hu with h | h
    · exact Or.inl h
    · exact Or.inr (htrace u h)
  · refine ⟨fun x hx => mem_foldl_setAdd _ _ x (hsub x hx), ?_, ?_⟩
    · intro u hu
      rcases List.mem_append.mp hu with h | h
      · exact Or.inl h
      · exact Or.inr (htrace u h)
    · intro r hr
      rcases List.mem_append.mp hr with h | h
      · exact Or.inl h
      · exact Or.inr (hrec r h)

theorem researchLoop_dedup_invariant (project : Project) (env : RunEnv)
    (minResults nowMs : Nat) (hist : List String)
    (hwf : ∀ it u, ((env.iter it).extract u).url = u) :
    ∀ (fuel it : Nat) (st : LoopState),
      (∀ x ∈ hist, x ∈ st.processedUrlsSet) →
      (∀ u ∈ st.fetchedUrlsTrace, simpleNormalize u ∉ hist) →
      (∀ r ∈ st.allRelevantResults, simpleNormalize r.url ∉ hist) →
      (∀ u ∈ (researchLoop project env minResults nowMs fuel it st).1.fetchedUrlsTrace,
        simpleNormalize u ∉ hist) ∧
      (∀ r ∈ (researchLoop project env minResults nowMs fuel it st).1.allRelevantResults,
        simpleNormalize r.url ∉ hist) := by
  intro fuel
  induction fuel with
  | zero =>
    intro it st hsub htr hrec
    exact ⟨htr, hrec⟩
  | succ f ih =>
    intro it st hsub htr hrec
    have hbody := iterationBody_dedup_invariant project (env.iter it) minResults nowMs
      env.searchEngineName st hist hsub (hwf it)
    have htr2 : ∀ u ∈ (iterationBody project (env.iter it) minResults nowMs
        env.searchEngineName st).1.fetchedUrlsTrace, simpleNormalize u ∉ hist := by
      intro u hu
      rcases hbody.2.1 u hu with h | h
      · exact htr u h
      · exact h
    have hrec2 : ∀ r ∈ (iterationBody project (env.iter it) minResults nowMs
        env.searchEngineName st).1.allRelevantResults, simpleNormalize r.url ∉ hist := by
      intro r hr
      rcases hbody.2.2 r hr with h | h
      · exact hrec r h
      · exact h
    simp only [researchLoop]
    split
    · exact ⟨htr2, hrec2⟩
    · exact ih (it + 1) _ hbody.1 htr2 hrec2

/-- C1 (amended): cross-run deduplication uses the inline normalization
(lower-case the whole URL and strip one trailing slash), not normalizeUrl:
whenever that normal form of a URL is already present in the Search
History normalized set, the URL is excluded both from content extraction
and from the final relevant-results set; the extractor is assumed to
label each extraction with the URL it was asked to fetch. -/
theorem C1_amended_cross_run_dedup (project : Project) (history : List ProcessedUrl)
    (opts : ResearchOptions) (env : RunEnv) (nowMs : Nat) (u : String)
    (hwf : ∀ it v, ((env.iter it).extract v).url = v)
    (hmem : simpleNormalize u ∈ history.map (·.normalizedUrl)) :
    u ∉ (executeResearchForProject project history opts env nowMs).fetchedUrls ∧
    ∀ r ∈ (executeResearchForProject project history opts env nowMs).result.relevantResults,
      r.url ≠ u := by
  by_cases hfreq : (!opts.ignoreFrequencyCheck
      && !validateFrequency project.frequency project.lastRunAt nowMs) = true
  · constructor
    · simp [executeResearchForProject, hfreq]
    · simp [executeResearchForProject, hfreq]
  · rw [Bool.not_eq_true] at hfreq
    have hloop := researchLoop_dedup_invariant project env
      (jsOrNat opts.minResults project.settings.minResults) nowMs
      (history.map (·.normalizedUrl)) hwf
      (jsOrNat opts.maxIterations 3) 1
      { processedUrlsSet := history.map (·.normalizedUrl)
        allRelevantResults := [], totalUrlsFetched := 0, totalUrlsSuccessful := 0
        allQueriesGenerated := [], allQueriesExecuted := []
        queryPerformanceMap := [], fetchedUrlsTrace := [], queryGenCalls := [] }
      (fun x hx => hx) (fun u hu => absurd hu (List.not_mem_nil u))
      (fun r hr => absurd hr (List.not_mem_nil r))
    constructor
    · intro hu
      simp only [executeResearchForProject, hfreq, Bool.false_eq_true, if_false] at hu
      exact hloop.1 u hu hmem
    · intro r hr hru
      simp only [executeResearchForProject, hfreq, Bool.false_eq_true, if_false] at hr
      have hr2 : r ∈ sortDescBy (fun x : SearchResultRec => x.relevancyScore)
          (researchLoop project env (jsOrNat opts.minResults project.settings.minResults)
            nowMs (jsOrNat opts.maxIterations 3) 1
            { processedUrlsSet := history.map (·.normalizedUrl)
              allRelevantResults := [], totalUrlsFetched := 0, totalUrlsSuccessful := 0
              allQueriesGenerated := [], allQueriesExecuted := []
              queryPerformanceMap := [], fetchedUrlsTrace := [], queryGenCalls := [] }).1.allRelevantResults :=
        List.mem_of_mem_take hr
      have hr3 := (sortDescBy_perm (fun x : SearchResultRec => x.relevancyScore) _).mem_iff.mp hr2
      have := hloop.2 r hr3
      rw [hru] at this
      exact this hmem

/-- Project for the C1 runs. -/
def c1Project : Project :=
  { description := "g", frequency := .daily, deliveryHours := 9, deliveryMinutes := 0
    tzOffsetMs := 0, lastRunAt := none, requiredKeywords := [], excludedKeywords := []
    dateRangePreference := none
    settings := { relevancyThreshold := 60, minResults := 1, maxResults := 3 } }

/-- Search history for the C1 counterexample: it already contains the
normalizeUrl form of the query-bearing URL the next run will see. -/
def c1History : List ProcessedUrl :=
  [{ url := "https://ex.com/a", normalizedUrl := "https://ex.com/a", firstSeenAt := 0
     timesFound := 1, lastRelevancyScore := 80, wasIncluded := true }]

/-- Environment for the C1 counterexample: the search returns the same
page again, now carrying a query string. -/
def c1Env : RunEnv :=
  { iter := fun _ =>
      { generatedQueries := [⟨"q"⟩]
        searchResponses := [("q", ⟨[⟨"https://ex.com/a?x=1", "t", "d", ""⟩]⟩)]
        filterResult := none
        extract := fun u =>
          { url := u, normalizedUrl := normalizeUrl u, title := "t", snippet := "s"
            fullContent := "", publishedDate := "", fetchStatus := "success", fetchedAt := 2 }
        analyze := fun l => l.map fun c => ⟨c.url, 90, "r", true⟩ }
    compileReport := fun l => ⟨"", "", "", 90, l.length⟩
    searchEngineName := "Brave" }

/-- Counterexample to C1 as stated: the history holds exactly the
normalizeUrl form of the incoming URL, yet the orchestrator extracts the
URL and returns it among the relevant results, because its deduplication
normalizes by lower-casing and stripping one trailing slash only, which
keeps the query string. -/
theorem C1_counterexample :
    normalizeUrl "https://ex.com/a?x=1" = "https://ex.com/a" ∧
    (c1History.map (·.normalizedUrl)) = [normalizeUrl "https://ex.com/a?x=1"] ∧
    "https://ex.com/a?x=1"
      ∈ (executeResearchForProject c1Project c1History {} c1Env 0).fetchedUrls ∧
    "https://ex.com/a?x=1"
      ∈ ((executeResearchForProject c1Project c1History {} c1Env 0).result.relevantResults.map
          (·.url)) ∧
    simpleNormalize "https://ex.com/a?x=1" ≠ simpleNormalize "https://ex.com/a" := by
  refine ⟨by decide, by decide, by decide, by decide, by decide⟩

/-- Search history for the C1 witness: it contains the inline normal form
of the incoming URL. -/
def c1wHistory : List ProcessedUrl :=
  [{ url := "https://b.com/y", normalizedUrl := "https://b.com/y", firstSeenAt := 0
     timesFound := 1, lastRelevancyScore := 80, wasIncluded := true }]

/-- Environment for the C1 witness: the search returns the already-seen
URL (with a trailing slash and upper-case letters) plus one fresh URL. -/
def c1wEnv : RunEnv :=
  { iter := fun _ =>
      { generatedQueries := [⟨"q"⟩]
        searchResponses := [("q", ⟨[⟨"https://b.com/y", "t", "d", ""⟩,
                                    ⟨"https://c.com/z", "t", "d", ""⟩]⟩)]
        filterResult := none
        extract := fun u =>
          { url := u, normalizedUrl := normalizeUrl u, title := "t", snippet := "s"
            fullContent := "", publishedDate := "", fetchStatus := "success", fetchedAt := 2 }
        analyze := fun l => l.map fun c => ⟨c.url, 90, "r", true⟩ }
    compileReport := fun l => ⟨"", "", "", 90, l.length⟩
    searchEngineName := "Brave" }

/-- Witness for C1 (amended) at a run whose history carries the inline
normal form of a returned URL. -/
theorem C1_amended_cross_run_dedup_witness :
    ((∀ it v, ((c1wEnv.iter it).extract v).url = v) ∧
      simpleNormalize "https://b.com/y" ∈ c1wHistory.map (·.normalizedUrl)) ∧
    ("https://b.com/y"
        ∉ (executeResearchForProject c1Project c1wHistory {} c1wEnv 0).fetchedUrls ∧
      ∀ r ∈ (executeResearchForProject c1Project c1wHistory {} c1wEnv 0).result.relevantResults,
        r.url ≠ "https://b.com/y") :=
  ⟨⟨fun _ _ => rfl, by decide⟩,
    C1_amended_cross_run_dedup c1Project c1wHistory {} c1wEnv 0 "https://b.com/y"
      (fun _ _ => rfl) (by decide)⟩

/-! ## Calendar correctness lemmas -/

theorem daysInYear_ge (y : Nat) : 365 ≤ daysInYear y := by
  unfold daysInYear; split <;> omega

theorem daysInMonth_ge (y m : Nat) : 28 ≤ daysInMonth y m := by
  unfold daysInMonth
  split
  · split <;> omega
  · split <;> omega

theorem daysBeforeYear_succ (y : Nat) (h : 1970 ≤ y) :
    daysBeforeYear (y + 1) = daysBeforeYear y + daysInYear y := by
  have h1 : y + 1 - 1970 = (y - 1970) + 1 := by omega
  have h2 : 1970 + (y - 1970) = y := by omega
  rw [daysBeforeYear, h1, daysBeforeYearAux, h2, daysBeforeYear]

theorem daysBeforeMonth_succ (y m : Nat) (h : 1 ≤ m) :
    daysBeforeMonth y (m + 1) = daysBeforeMonth y m + daysInMonth y m := by
  obtain ⟨k, rfl⟩ : ∃ k, m = k + 1 := ⟨m - 1, by omega⟩
  simp [daysBeforeMonth, List.range_succ]

theorem daysBeforeMonth_one (y : Nat) : daysBeforeMonth y 1 = 0 := by
  simp [daysBeforeMonth]

theorem daysBeforeMonth_13 (y : Nat) : daysBeforeMonth y 13 = daysInYear y := by
  cases h : isLeapYear y <;>
    simp [daysBeforeMonth, daysInMonth, daysInYear, h] <;> decide

theorem findYearAux_spec : ∀ (fuel y n : Nat), 1970 ≤ y → n ≤ 365 * fuel + 364 →
    (daysBeforeYear (findYearAux fuel y n).1 + (findYearAux fuel y n).2 =
      daysBeforeYear y + n) ∧
    (findYearAux fuel y n).2 < daysInYear (findYearAux fuel y n).1 ∧
    1970 ≤ (findYearAux fuel y n).1 := by
  intro fuel
  induction fuel with
  | zero =>
    intro y n hy hn
    have := daysInYear_ge y
    refine ⟨rfl, ?_, hy⟩
    show n < daysInYear y
    omega
  | succ f ih =>
    intro y n hy hn
    simp only [findYearAux]
    split
    · rename_i hguard
      have hdy := daysInYear_ge y
      have := ih (y + 1) (n - daysInYear y) (by omega) (by omega)
      refine ⟨?_, this.2.1, this.2.2⟩
      rw [this.1, daysBeforeYear_succ y hy]
      omega
    · rename_i hguard
      refine ⟨rfl, ?_, hy⟩
      show n < daysInYear y
      omega

theorem findMonthAux_spec : ∀ (fuel m n y : Nat), 1 ≤ m → m + fuel = 12 →
    daysBeforeMonth y m + n < daysBeforeMonth y 13 →
    (daysBeforeMonth y (findMonthAux fuel y m n).1 + (findMonthAux fuel y m n).2 =
      daysBeforeMonth y m + n) ∧
    (findMonthAux fuel y m n).2 < daysInMonth y (findMonthAux fuel y m n).1 ∧
    1 ≤ (findMonthAux fuel y m n).1 ∧ (findMonthAux fuel y m n).1 ≤ 12 := by
  intro fuel
  induction fuel with
  | zero =>
    intro m n y hm hm12 hbound
    have h12 : m = 12 := by omega
    subst h12
    have h13 : daysBeforeMonth y 13 = daysBeforeMonth y 12 + daysInMonth y 12 := by
      have h := daysBeforeMonth_succ y 12 (by omega)
      norm_num at h
      exact h
    refine ⟨rfl, ?_, ?_, ?_⟩
    · show n < daysInMonth y 12
      omega
    · show (1 : Nat) ≤ 12
      omega
    · show (12 : Nat) ≤ 12
      omega
  | succ f ih =>
    intro m n y hm hm12 hbound
    simp only [findMonthAux]
    split
    · rename_i hguard
      have hsucc := daysBeforeMonth_succ y m hm
      have := ih (m + 1) (n - daysInMonth y m) y (by omega) (by omega) (by omega)
      refine ⟨?_, this.2.1, this.2.2⟩
      rw [this.1, hsucc]
      omega
    · rename_i hguard
      have hmlt : m < 12 := by omega
      refine ⟨rfl, ?_, hm, by omega⟩
      show n < daysInMonth y m
      omega

theorem civilFromDays_spec (n : Nat) :
    daysFromCivil (civilFromDays n).1 (civilFromDays n).2.1 (civilFromDays n).2.2 = n ∧
    1 ≤ (civilFromDays n).2.1 ∧ (civilFromDays n).2.1 ≤ 12 ∧
    1 ≤ (civilFromDays n).2.2 ∧
    (civilFromDays n).2.2 ≤ daysInMonth (civilFromDays n).1 (civilFromDays n).2.1 ∧
    1970 ≤ (civilFromDays n).1 := by
  have hyear := findYearAux_spec n 1970 n (by omega) (by omega)
  have hb0 : daysBeforeYear 1970 = 0 := by simp [daysBeforeYear, daysBeforeYearAux]
  have hmonth := findMonthAux_spec 11 1 (findYearAux n 1970 n).2 (findYearAux n 1970 n).1
    (by omega) (by omega)
    (by
      rw [daysBeforeMonth_one, daysBeforeMonth_13]
      omega)
  simp only [civilFromDays, daysFromCivil]
  rw [daysBeforeMonth_one] at hmonth
  refine ⟨?_, hmonth.2.2.1, hmonth.2.2.2, by omega, by omega, hyear.2.2⟩
  have h1 := hyear.1
  have h2 := hmonth.1
  rw [hb0] at h1
  omega

theorem civilFromMs_date_spec (x : Nat) :
    daysFromCivil (civilFromMs x).year (civilFromMs x).month (civilFromMs x).day
      = x / 86400000 ∧
    1 ≤ (civilFromMs x).month ∧ (civilFromMs x).month ≤ 12 ∧
    1 ≤ (civilFromMs x).day ∧
    (civilFromMs x).day ≤ daysInMonth (civilFromMs x).year (civilFromMs x).month ∧
    1970 ≤ (civilFromMs x).year := by
  have h := civilFromDays_spec (x / 86400000)
  simpa [civilFromMs] using h

theorem civilToMs_civilFromMs (x : Nat) : civilToMs (civilFromMs x) = x := by
  have h := (civilFromMs_date_spec x).1
  simp only [civilToMs]
  rw [h]
  simp only [civilFromMs]
  omega

theorem addDaysCivil_toMs (c : CivilDateTime) (k : Nat) :
    civilToMs (addDaysCivil c k) = civilToMs c + k * 86400000 ∧
    daysFromCivil (addDaysCivil c k).year (addDaysCivil c k).month (addDaysCivil c k).day =
      daysFromCivil c.year c.month c.day + k := by
  have h := civilFromDays_spec (daysFromCivil c.year c.month c.day + k)
  constructor
  · simp only [civilToMs, addDaysCivil]
    rw [h.1]
    ring
  · simp only [addDaysCivil]
    exact h.1

theorem addMonthsCivil_days_ge (c : CivilDateTime)
    (hm1 : 1 ≤ c.month) (hm2 : c.month ≤ 12) (hd1 : 1 ≤ c.day)
    (hd2 : c.day ≤ daysInMonth c.year c.month) (hy : 1970 ≤ c.year) :
    daysFromCivil c.year c.month c.day + 1 ≤
      daysFromCivil (addMonthsCivil c).year (addMonthsCivil c).month (addMonthsCivil c).day := by
  by_cases h12 : c.month = 12
  · simp only [addMonthsCivil, h12, if_pos]
    have hb13 : daysBeforeMonth c.year 13 = daysInYear c.year := daysBeforeMonth_13 c.year
    have hb12 : daysBeforeMonth c.year 13
        = daysBeforeMonth c.year 12 + daysInMonth c.year 12 := by
      have h := daysBeforeMonth_succ c.year 12 (by omega)
      norm_num at h
      exact h
    have hby := daysBeforeYear_succ c.year hy
    have hb1 : daysBeforeMonth (c.year + 1) 1 = 0 := daysBeforeMonth_one (c.year + 1)
    have hdim : 28 ≤ daysInMonth (c.year + 1) 1 := daysInMonth_ge _ _
    simp only [daysFromCivil, hb1]
    rw [h12] at hd2
    omega
  · simp only [addMonthsCivil, if_neg h12]
    have hsucc := daysBeforeMonth_succ c.year c.month hm1
    have hdim : 28 ≤ daysInMonth c.year (c.month + 1) := daysInMonth_ge _ _
    simp only [daysFromCivil]
    have hmin : 1 ≤ min c.day (daysInMonth c.year (c.month + 1)) := by omega
    have hmin2 : min c.day (daysInMonth c.year (c.month + 1)) ≤ c.day := Nat.min_le_left _ _
    omega

theorem addFrequencyPeriod_ms_ge (c : CivilDateTime) (f : Frequency)
    (hm1 : 1 ≤ c.month) (hm2 : c.month ≤ 12) (hd1 : 1 ≤ c.day)
    (hd2 : c.day ≤ daysInMonth c.year c.month) (hy : 1970 ≤ c.year) :
    (daysFromCivil c.year c.month c.day + 1) * 86400000 ≤
      civilToMs (addFrequencyPeriod c f) := by
  cases f with
  | daily =>
    have h := addDaysCivil_toMs c 1
    simp only [addFrequencyPeriod]
    rw [h.1]
    simp only [civilToMs]
    omega
  | weekly =>
    have h := addDaysCivil_toMs c 7
    simp only [addFrequencyPeriod]
    rw [h.1]
    simp only [civilToMs]
    omega
  | monthly =>
    have h := addMonthsCivil_days_ge c hm1 hm2 hd1 hd2 hy
    simp only [addFrequencyPeriod, civilToMs]
    have : (addMonthsCivil c).hour = c.hour := rfl
    nlinarith [h]

theorem ensureFutureAux_of_after (f : Frequency) (nowZ : CivilDateTime) (fuel : Nat)
    (d : CivilDateTime) (h : isAfterCivil d nowZ = true) :
    ensureFutureAux f nowZ fuel d = d := by
  cases fuel <;> simp [ensureFutureAux, h]

/-- C8 (amended): calculateNextRunAt interprets HH:MM as a wall-clock
time in the (fixed-offset) timezone; when that time is still ahead today
it is returned as is, otherwise exactly one frequency period is added:
one day for daily, seven days for weekly, and for monthly the next
calendar month with the day-of-month clamped to that months length; the
returned timestamp is always strictly in the future relative to the
clock reading. -/
theorem C8_amended_calculateNextRunAt (frequency : Frequency) (hh mm : Nat) (off : Int)
    (lastRunAt : Option Nat) (nowMs : Nat)
    (hoff : 0 ≤ (nowMs : Int) + off) :
    (nowMs : Int) < calculateNextRunAt frequency hh mm off lastRunAt nowMs ∧
    calculateNextRunAt frequency hh mm off lastRunAt nowMs =
      (if civilToMs (toZonedTime nowMs off)
          < civilToMs (setTimeOfDay (toZonedTime nowMs off) hh mm) then
        fromZonedTime (setTimeOfDay (toZonedTime nowMs off) hh mm) off
      else
        fromZonedTime
          (addFrequencyPeriod (setTimeOfDay (toZonedTime nowMs off) hh mm) frequency) off) ∧
    (¬ civilToMs (toZonedTime nowMs off)
        < civilToMs (setTimeOfDay (toZonedTime nowMs off) hh mm) →
      (frequency = .daily →
        calculateNextRunAt frequency hh mm off lastRunAt nowMs =
          fromZonedTime (setTimeOfDay (toZonedTime nowMs off) hh mm) off + 86400000) ∧
      (frequency = .weekly →
        calculateNextRunAt frequency hh mm off lastRunAt nowMs =
          fromZonedTime (setTimeOfDay (toZonedTime nowMs off) hh mm) off + 7 * 86400000) ∧
      (frequency = .monthly →
        calculateNextRunAt frequency hh mm off lastRunAt nowMs =
          fromZonedTime (addMonthsCivil (setTimeOfDay (toZonedTime nowMs off) hh mm)) off)) := by
  have hz : (((nowMs : Int) + off).toNat : Int) = (nowMs : Int) + off :=
    Int.toNat_of_nonneg hoff
  have hspec := civilFromMs_date_spec ((nowMs : Int) + off).toNat
  have hround := civilToMs_civilFromMs ((nowMs : Int) + off).toNat
  have hmod : ((nowMs : Int) + off).toNat % 86400000 < 86400000 := Nat.mod_lt _ (by omega)
  by_cases hcase : civilToMs (toZonedTime nowMs off)
      < civilToMs (setTimeOfDay (toZonedTime nowMs off) hh mm)
  · have hafter : isAfterCivil (setTimeOfDay (toZonedTime nowMs off) hh mm)
        (toZonedTime nowMs off) = true := by
      simp [isAfterCivil, hcase]
    have hcalc : calculateNextRunAt frequency hh mm off lastRunAt nowMs =
        fromZonedTime (setTimeOfDay (toZonedTime nowMs off) hh mm) off := by
      simp only [calculateNextRunAt, hafter, if_true]
      rw [ensureFutureAux_of_after frequency _ 1000 _ hafter]
    refine ⟨?_, ?_, ?_⟩
    · rw [hcalc]
      simp only [fromZonedTime]
      have h1 : civilToMs (toZonedTime nowMs off) = ((nowMs : Int) + off).toNat := by
        simpa [toZonedTime] using hround
      omega
    · rw [hcalc, if_pos hcase]
    · intro hno
      exact absurd hcase hno
  · have hnotafter : isAfterCivil (setTimeOfDay (toZonedTime nowMs off) hh mm)
        (toZonedTime nowMs off) = false := by
      simp [isAfterCivil, hcase]
    have hd0m : (setTimeOfDay (toZonedTime nowMs off) hh mm).month
        = (toZonedTime nowMs off).month := rfl
    have hge := addFrequencyPeriod_ms_ge (setTimeOfDay (toZonedTime nowMs off) hh mm)
      frequency (by exact hspec.2.1) (by exact hspec.2.2.1) (by exact hspec.2.2.2.1)
      (by exact hspec.2.2.2.2.1) (by exact hspec.2.2.2.2.2)
    have hdays : daysFromCivil (setTimeOfDay (toZonedTime nowMs off) hh mm).year
        (setTimeOfDay (toZonedTime nowMs off) hh mm).month
        (setTimeOfDay (toZonedTime nowMs off) hh mm).day
        = ((nowMs : Int) + off).toNat / 86400000 := hspec.1
    have hzval : civilToMs (toZonedTime nowMs off) = ((nowMs : Int) + off).toNat := by
      simpa [toZonedTime] using hround
    have hlt : civilToMs (toZonedTime nowMs off) <
        civilToMs (addFrequencyPeriod (setTimeOfDay (toZonedTime nowMs off) hh mm)
          frequency) := by
      rw [hzval]
      rw [hdays] at hge
      have hdiv := Nat.div_add_mod (((nowMs : Int) + off).toNat) 86400000
      omega
    have hafter2 : isAfterCivil
        (addFrequencyPeriod (setTimeOfDay (toZonedTime nowMs off) hh mm) frequency)
        (toZonedTime nowMs off) = true := by
      simp [isAfterCivil, hlt]
    have hcalc : calculateNextRunAt frequency hh mm off lastRunAt nowMs =
        fromZonedTime
          (addFrequencyPeriod (setTimeOfDay (toZonedTime nowMs off) hh mm) frequency) off := by
      simp only [calculateNextRunAt, hnotafter, Bool.false_eq_true, if_false]
      rw [ensureFutureAux_of_after frequency _ 1000 _ hafter2]
    refine ⟨?_, ?_, ?_⟩
    · rw [hcalc]
      simp only [fromZonedTime]
      omega
    · rw [hcalc, if_neg hcase]
    · intro _
      refine ⟨?_, ?_, ?_⟩
      · intro hf
        subst hf
        rw [hcalc]
        simp only [fromZonedTime, addFrequencyPeriod]
        rw [(addDaysCivil_toMs (setTimeOfDay (toZonedTime nowMs off) hh mm) 1).1]
        push_cast
        ring
      · intro hf
        subst hf
        rw [hcalc]
        simp only [fromZonedTime, addFrequencyPeriod]
        rw [(addDaysCivil_toMs (setTimeOfDay (toZonedTime nowMs off) hh mm) 7).1]
        push_cast
        ring
      · intro hf
        subst hf
        rw [hcalc]
        rfl

/-! ## Character-level lemmas for URL normalization -/

theorem char_toNat_ofNat (n : Nat) (h : n.isValidChar) : (Char.ofNat n).toNat = n := by
  simp [Char.ofNat, h, Char.ofNatAux, Char.toNat, UInt32.toNat]

theorem char_eq_iff_toNat (a b : Char) : a = b ↔ a.toNat = b.toNat := by
  constructor
  · intro h; rw [h]
  · intro h
    have ha := Char.ofNat_toNat a
    rw [← ha, h, Char.ofNat_toNat]

theorem lowerChar_toNat (c : Char) :
    (lowerChar c).toNat =
      if 65 ≤ c.toNat ∧ c.toNat ≤ 90 then c.toNat + 32 else c.toNat := by
  unfold lowerChar
  split <;> rename_i h
  · rw [char_toNat_ofNat (c.toNat + 32) (by left; omega)]
  · rfl

theorem lowerChar_idem (c : Char) : lowerChar (lowerChar c) = lowerChar c := by
  have h := lowerChar_toNat c
  have h2 := lowerChar_toNat (lowerChar c)
  rw [char_eq_iff_toNat]
  by_cases hA : 65 ≤ c.toNat ∧ c.toNat ≤ 90
  · rw [if_pos hA] at h
    rw [h, if_neg (by omega)] at h2
    omega
  · rw [if_neg hA] at h
    rw [h, if_neg hA] at h2
    omega

theorem lowerChar_eq_iff (c d : Char)
    (hd1 : ¬ (97 ≤ d.toNat ∧ d.toNat ≤ 122)) (hd2 : ¬ (65 ≤ d.toNat ∧ d.toNat ≤ 90)) :
    lowerChar c = d ↔ c = d := by
  have h := lowerChar_toNat c
  rw [char_eq_iff_toNat, char_eq_iff_toNat]
  by_cases hA : 65 ≤ c.toNat ∧ c.toNat ≤ 90
  · rw [if_pos hA] at h
    omega
  · rw [if_neg hA] at h
    omega

theorem lowerChar_fixed_of_image (c : Char) (x : Char) (h : c = lowerChar x) :
    lowerChar c = c := by
  rw [h, lowerChar_idem]

theorem isAsciiLetter_lowerChar (c : Char) : isAsciiLetter (lowerChar c) = isAsciiLetter c := by
  have h := lowerChar_toNat c
  simp only [isAsciiLetter, decide_eq_decide]
  by_cases hA : 65 ≤ c.toNat ∧ c.toNat ≤ 90
  · rw [if_pos hA] at h
    omega
  · rw [if_neg hA] at h
    omega

theorem isSchemeChar_lowerChar (c : Char) : isSchemeChar (lowerChar c) = isSchemeChar c := by
  have h := lowerChar_toNat c
  simp only [isSchemeChar, isAsciiLetter, decide_eq_decide, decide_eq_true_eq]
  by_cases hA : 65 ≤ c.toNat ∧ c.toNat ≤ 90
  · rw [if_pos hA] at h
    omega
  · rw [if_neg hA] at h
    omega

theorem schemeOk_map_lowerChar (l : List Char) :
    schemeOk (l.map lowerChar) = schemeOk l := by
  cases l with
  | nil => rfl
  | cons c rest =>
    have hfun : isSchemeChar ∘ lowerChar = isSchemeChar := funext isSchemeChar_lowerChar
    simp [schemeOk, isAsciiLetter_lowerChar, List.all_map, hfun]

theorem takeWhile_all {p : Char → Bool} :
    ∀ (l : List Char), (∀ c ∈ l, p c = true) → l.takeWhile p = l := by
  intro l
  induction l with
  | nil => intro _; rfl
  | cons c rest ih =>
    intro h
    rw [List.takeWhile_cons, h c (List.mem_cons_self c rest),
      ih (fun x hx => h x (List.mem_cons_of_mem c hx))]
    simp

theorem takeWhile_append_stop {p : Char → Bool} :
    ∀ (a : List Char) (x : Char) (r : List Char), (∀ c ∈ a, p c = true) → p x = false →
      (a ++ x :: r).takeWhile p = a := by
  intro a
  induction a with
  | nil =>
    intro x r _ hx
    simp [List.takeWhile_cons, hx]
  | cons c rest ih =>
    intro x r h hx
    simp only [List.cons_append, List.takeWhile_cons, h c (List.mem_cons_self c rest)]
    rw [ih x r (fun y hy => h y (List.mem_cons_of_mem c hy)) hx]
    simp

theorem mem_map_lowerChar_fixed (l : List Char) :
    ∀ c ∈ l.map lowerChar, lowerChar c = c := by
  intro c hc
  obtain ⟨c0, _, rfl⟩ := List.mem_map.mp hc
  exact lowerChar_idem c0

theorem map_lowerChar_fixed_of_mem (l : List Char) (h : ∀ c ∈ l, lowerChar c = c) :
    l.map lowerChar = l := by
  induction l with
  | nil => rfl
  | cons c rest ih =>
    simp only [List.map_cons, h c (List.mem_cons_self c rest)]
    rw [ih (fun x hx => h x (List.mem_cons_of_mem c hx))]

theorem parseUrl_some_spec (s : String) (p : ParsedUrl) (hp : parseUrl s = some p) :
    schemeOk p.scheme = true ∧
    (∀ c ∈ p.scheme, lowerChar c = c) ∧ (∀ c ∈ p.scheme, c ≠ ':') ∧
    (∀ c ∈ p.hostname, lowerChar c = c) ∧
    (∀ c ∈ p.hostname, c ≠ ':' ∧ c ≠ '/' ∧ c ≠ '?' ∧ c ≠ '#') ∧
    (∃ pt, p.pathname = '/' :: pt) ∧
    (∀ c ∈ p.pathname, c ≠ '?' ∧ c ≠ '#') := by
  simp only [parseUrl] at hp
  split at hp
  case h_2 => exact absurd hp (by simp)
  case h_1 _ r heq =>
    split at hp
    case isFalse => exact absurd hp (by simp)
    case isTrue hscheme =>
      split at hp
      case isTrue => exact absurd hp (by simp)
      case isFalse hne =>
        rw [Option.some_inj] at hp
        subst hp
        refine ⟨?_, ?_, ?_, ?_, ?_, ?_, ?_⟩
        · rw [schemeOk_map_lowerChar]
          exact hscheme
        · exact mem_map_lowerChar_fixed _
        · intro c hc
          obtain ⟨c0, hc0, rfl⟩ := List.mem_map.mp hc
          have h1 := List.mem_takeWhile_imp hc0
          intro hcontra
          rw [lowerChar_eq_iff c0 ':' (by decide) (by decide)] at hcontra
          subst hcontra
          simp at h1
        · exact mem_map_lowerChar_fixed _
        · intro c hc
          obtain ⟨c0, hc0, rfl⟩ := List.mem_map.mp hc
          have h1 := List.mem_takeWhile_imp hc0
          have h2 := List.mem_takeWhile_imp (List.takeWhile_subset _ hc0)
          rw [decide_eq_true_eq] at h2
          refine ⟨?_, ?_, ?_, ?_⟩
          · intro hcontra
            rw [lowerChar_eq_iff c0 ':' (by decide) (by decide)] at hcontra
            subst hcontra
            simp at h1
          · intro hcontra
            rw [lowerChar_eq_iff c0 '/' (by decide) (by decide)] at hcontra
            subst hcontra
            simp at h2
          · intro hcontra
            rw [lowerChar_eq_iff c0 '?' (by decide) (by decide)] at hcontra
            subst hcontra
            simp at h2
          · intro hcontra
            rw [lowerChar_eq_iff c0 '#' (by decide) (by decide)] at hcontra
            subst hcontra
            simp at h2
        · split
          case h_1 _ t heq2 =>
            rw [heq2, List.takeWhile_cons]
            simp only [show (decide (('/' : Char) ≠ '?' ∧ ('/' : Char) ≠ '#')) = true by decide]
            exact ⟨_, rfl⟩
          case h_2 => exact ⟨[], rfl⟩
        · split
          case h_1 _ t heq2 =>
            intro c hc
            have h1 := List.mem_takeWhile_imp hc
            rw [decide_eq_true_eq] at h1
            exact h1
          case h_2 =>
            intro c hc
            have : c = '/' := by simpa using hc
            subst this
            exact ⟨by decide, by decide⟩

theorem parseUrl_rebuild (sch host pt : List Char)
    (hschemeOk : schemeOk sch = true)
    (hsch_ne : ∀ c ∈ sch, c ≠ ':')
    (hhost_ne : ∀ c ∈ host, c ≠ ':' ∧ c ≠ '/' ∧ c ≠ '?' ∧ c ≠ '#')
    (hhost_low : ∀ c ∈ host, lowerChar c = c)
    (hhost_nonempty : host ≠ [])
    (hpath_ne : ∀ c ∈ ('/' :: pt), c ≠ '?' ∧ c ≠ '#')
    (hsch_low : ∀ c ∈ sch, lowerChar c = c) :
    parseUrl ⟨sch ++ ':' :: '/' :: '/' :: (host ++ '/' :: pt)⟩ =
      some ⟨sch, host, '/' :: pt⟩ := by
  have e1 : (sch ++ ':' :: '/' :: '/' :: (host ++ '/' :: pt)).takeWhile
      (fun c => decide (c ≠ ':')) = sch := by
    refine takeWhile_append_stop sch ':' _ ?_ (by decide)
    intro c hc
    exact decide_eq_true (hsch_ne c hc)
  have e2 : (sch ++ ':' :: '/' :: '/' :: (host ++ '/' :: pt)).drop sch.length =
      ':' :: '/' :: '/' :: (host ++ '/' :: pt) := List.drop_left sch _
  have e3 : (host ++ '/' :: pt).takeWhile
      (fun c => decide (c ≠ '/' ∧ c ≠ '?' ∧ c ≠ '#')) = host := by
    refine takeWhile_append_stop host '/' pt ?_ (by decide)
    intro c hc
    exact decide_eq_true ⟨(hhost_ne c hc).2.1, (hhost_ne c hc).2.2.1, (hhost_ne c hc).2.2.2⟩
  have e4 : (host ++ '/' :: pt).drop host.length = '/' :: pt := List.drop_left host _
  have e5 : host.takeWhile (fun c => decide (c ≠ ':')) = host := by
    refine takeWhile_all host ?_
    intro c hc
    exact decide_eq_true (hhost_ne c hc).1
  have e6 : host.map lowerChar = host := map_lowerChar_fixed_of_mem host hhost_low
  have e7 : ('/' :: pt).takeWhile (fun c => decide (c ≠ '?' ∧ c ≠ '#')) = '/' :: pt := by
    refine takeWhile_all _ ?_
    intro c hc
    exact decide_eq_true ⟨(hpath_ne c hc).1, (hpath_ne c hc).2⟩
  have e8 : sch.map lowerChar = sch := map_lowerChar_fixed_of_mem sch hsch_low
  simp only [parseUrl, e1, e2, e3, e4, e5, e6, e7, e8, hschemeOk, if_true]
  have h9 : host.isEmpty = false := by
    simpa [List.isEmpty_iff] using hhost_nonempty
  simp [h9]

theorem stripWwwOnce_subset (h : List Char) : ∀ c ∈ stripWwwOnce h, c ∈ h := by
  intro c hc
  unfold stripWwwOnce at hc
  split at hc
  · exact List.mem_of_mem_drop hc
  · exact hc

theorem stripWwwOnce_id_of_no_www (h : List Char)
    (hW : isPrefixCh ['w', 'w', 'w', '.'] h = false) : stripWwwOnce h = h := by
  unfold stripWwwOnce
  rw [hW]
  simp

theorem stripTrailingSlashPath_shape (pt : List Char) :
    ∃ pt2, stripTrailingSlashPath ('/' :: pt) = '/' :: pt2 := by
  unfold stripTrailingSlashPath
  split
  · rename_i hcond
    cases pt with
    | nil => simp at hcond
    | cons a t => exact ⟨(a :: t).dropLast, rfl⟩
  · exact ⟨pt, rfl⟩

theorem stripTrailingSlashPath_subset (p : List Char) :
    ∀ c ∈ stripTrailingSlashPath p, c ∈ p := by
  intro c hc
  unfold stripTrailingSlashPath at hc
  split at hc
  · exact (List.dropLast_sublist p).subset hc
  · exact hc

theorem normalizeUrl_of_parsed (u : String) (p : ParsedUrl) (hp : parseUrl u = some p) :
    normalizeUrl u =
      ⟨p.scheme ++ ':' :: '/' :: '/' ::
        (stripWwwOnce p.hostname ++ stripTrailingSlashPath p.pathname)⟩ := by
  have hspec := parseUrl_some_spec u p hp
  have hfix : p.hostname.map lowerChar = p.hostname :=
    map_lowerChar_fixed_of_mem _ hspec.2.2.2.1
  simp only [normalizeUrl, hp, hfix]
  congr 1
  simp

theorem normalizeUrl_idem_of_parsed (u : String) (p : ParsedUrl)
    (hp : parseUrl u = some p)
    (hW : isPrefixCh ['w', 'w', 'w', '.'] (stripWwwOnce p.hostname) = false)
    (hN : stripWwwOnce p.hostname ≠ [])
    (hS : stripTrailingSlashPath (stripTrailingSlashPath p.pathname) =
      stripTrailingSlashPath p.pathname) :
    normalizeUrl (normalizeUrl u) = normalizeUrl u := by
  have hspec := parseUrl_some_spec u p hp
  obtain ⟨pt, hpt⟩ := hspec.2.2.2.2.2.1
  have hshape : ∃ pt2, stripTrailingSlashPath p.pathname = '/' :: pt2 := by
    rw [hpt]
    exact stripTrailingSlashPath_shape pt
  obtain ⟨pt2, hpt2⟩ := hshape
  have hbase := normalizeUrl_of_parsed u p hp
  have hreparse := parseUrl_rebuild p.scheme (stripWwwOnce p.hostname) pt2
    hspec.1
    hspec.2.2.1
    (fun c hc => hspec.2.2.2.2.1 c (stripWwwOnce_subset _ c hc))
    (fun c hc => hspec.2.2.2.1 c (stripWwwOnce_subset _ c hc))
    hN
    (by
      rw [← hpt2]
      intro c hc
      exact hspec.2.2.2.2.2.2 c (stripTrailingSlashPath_subset _ c hc))
    hspec.2.1
  rw [hbase, hpt2]
  rw [show normalizeUrl
        ⟨p.scheme ++ ':' :: '/' :: '/' :: (stripWwwOnce p.hostname ++ '/' :: pt2)⟩ =
      ⟨p.scheme ++ ':' :: '/' :: '/' ::
        (stripWwwOnce (((stripWwwOnce p.hostname).map lowerChar))
          ++ stripTrailingSlashPath ('/' :: pt2))⟩ from by
    simp only [normalizeUrl, hreparse]
    congr 1
    simp]
  have hfix2 : (stripWwwOnce p.hostname).map lowerChar = stripWwwOnce p.hostname :=
    map_lowerChar_fixed_of_mem _
      (fun c hc => hspec.2.2.2.1 c (stripWwwOnce_subset _ c hc))
  rw [hfix2]
  rw [stripWwwOnce_id_of_no_www (stripWwwOnce p.hostname) hW]
  rw [← hpt2, hS]

theorem lowerChar_ne_eq (d : Char)
    (hd1 : ¬ (97 ≤ d.toNat ∧ d.toNat ≤ 122)) (hd2 : ¬ (65 ≤ d.toNat ∧ d.toNat ≤ 90)) :
    ∀ c : Char, (decide (lowerChar c ≠ d)) = (decide (c ≠ d)) := by
  intro c
  simp only [decide_eq_decide]
  exact not_congr (lowerChar_eq_iff c d hd1 hd2)

theorem takeWhile_colon_map (l : List Char) :
    (l.map lowerChar).takeWhile (fun c => decide (c ≠ ':')) =
      (l.takeWhile (fun c => decide (c ≠ ':'))).map lowerChar := by
  rw [List.takeWhile_map]
  have hp : ((fun c : Char => decide (c ≠ ':')) ∘ lowerChar) =
      (fun c : Char => decide (c ≠ ':')) := by
    funext c
    simp only [Function.comp]
    exact lowerChar_ne_eq ':' (by decide) (by decide) c
  rw [hp]

theorem takeWhile_host_map (l : List Char) :
    (l.map lowerChar).takeWhile (fun c => decide (c ≠ '/' ∧ c ≠ '?' ∧ c ≠ '#')) =
      (l.takeWhile (fun c => decide (c ≠ '/' ∧ c ≠ '?' ∧ c ≠ '#'))).map lowerChar := by
  rw [List.takeWhile_map]
  have hp : ((fun c : Char => decide (c ≠ '/' ∧ c ≠ '?' ∧ c ≠ '#')) ∘ lowerChar) =
      (fun c : Char => decide (c ≠ '/' ∧ c ≠ '?' ∧ c ≠ '#')) := by
    funext c
    simp only [Function.comp, decide_eq_decide]
    exact and_congr (not_congr (lowerChar_eq_iff c '/' (by decide) (by decide)))
      (and_congr (not_congr (lowerChar_eq_iff c '?' (by decide) (by decide)))
        (not_congr (lowerChar_eq_iff c '#' (by decide) (by decide))))
  rw [hp]

theorem map_lower_slashes_shape (rest r2 : List Char)
    (heq : rest.map lowerChar = ':' :: '/' :: '/' :: r2) :
    ∃ r, rest = ':' :: '/' :: '/' :: r ∧ r.map lowerChar = r2 := by
  cases rest with
  | nil => simp at heq
  | cons c1 t1 =>
    simp only [List.map_cons, List.cons.injEq] at heq
    have hc1 : c1 = ':' := by
      rw [← lowerChar_eq_iff c1 ':' (by decide) (by decide)]
      exact heq.1
    cases t1 with
    | nil => simp at heq
    | cons c2 t2 =>
      simp only [List.map_cons, List.cons.injEq] at heq
      have hc2 : c2 = '/' := by
        rw [← lowerChar_eq_iff c2 '/' (by decide) (by decide)]
        exact heq.2.1
      cases t2 with
      | nil => simp at heq
      | cons c3 t3 =>
        simp only [List.map_cons, List.cons.injEq] at heq
        have hc3 : c3 = '/' := by
          rw [← lowerChar_eq_iff c3 '/' (by decide) (by decide)]
          exact heq.2.2.1
        subst hc1; subst hc2; subst hc3
        exact ⟨t3, rfl, heq.2.2.2⟩

theorem map_lowerChar_map_lowerChar (l : List Char) :
    (l.map lowerChar).map lowerChar = l.map lowerChar := by
  rw [List.map_map]
  have hp : (lowerChar ∘ lowerChar) = lowerChar := funext lowerChar_idem
  rw [hp]

theorem isEmpty_map_char (f : Char → Char) (l : List Char) :
    (l.map f).isEmpty = l.isEmpty := by
  cases l <;> rfl

theorem parseUrl_lowerStr_none (s : String) (h : parseUrl s = none) :
    parseUrl (lowerStr s) = none := by
  simp only [parseUrl, lowerStr] at h ⊢
  rw [takeWhile_colon_map, List.length_map, ← List.map_drop]
  split
  case h_2 => rfl
  case h_1 _ r2 heq2 =>
    obtain ⟨r, hr, hmap⟩ := map_lower_slashes_shape _ r2 heq2
    rw [hr] at h
    rw [← hmap]
    rw [schemeOk_map_lowerChar]
    split
    case isFalse hsch => rfl
    case isTrue hsch =>
      split at h
      case h_2 hcontra => exact (hcontra r rfl).elim
      case h_1 _ r3 heq3 =>
        have hr3 : r3 = r := by
          simpa using heq3.symm
        subst hr3
        rw [if_pos hsch, isEmpty_map_char] at h
        rw [takeWhile_host_map, List.length_map, ← List.map_drop, takeWhile_colon_map,
          map_lowerChar_map_lowerChar, isEmpty_map_char]
        split
        case isTrue => rfl
        case isFalse hne =>
          rw [if_neg (by simpa using hne)] at h
          exact absurd h (by simp)

theorem lowerStr_idem (u : String) : lowerStr (lowerStr u) = lowerStr u := by
  show String.mk _ = String.mk _
  exact congrArg String.mk (map_lowerChar_map_lowerChar u.data)

theorem normalizeUrl_idem_of_unparsed (u : String) (h : parseUrl u = none) :
    normalizeUrl (normalizeUrl u) = normalizeUrl u := by
  have h1 : normalizeUrl u = lowerStr u := by
    simp [normalizeUrl, h]
  rw [h1]
  simp only [normalizeUrl, parseUrl_lowerStr_none u h]
  exact lowerStr_idem u

/-- C9 (amended): normalizeUrl is idempotent on every input that does not
parse (it lower-cases and is then fixed), and on every URL that parses
whose host, after stripping one leading www. segment, is nonempty and
does not again start with www., and whose trailing-slash-stripped path
does not itself end in a slash; repeated application can otherwise strip
further www. segments, empty the host, or strip further slashes.  The
claimed concrete identification holds: the normal forms of
https://www.EX.com/a/ and https://ex.com/a?x=1#f coincide. -/
theorem C9_amended_normalizeUrl_idempotence :
    (∀ (u : String) (p : ParsedUrl), parseUrl u = some p →
      isPrefixCh ['w', 'w', 'w', '.'] (stripWwwOnce p.hostname) = false →
      stripWwwOnce p.hostname ≠ [] →
      stripTrailingSlashPath (stripTrailingSlashPath p.pathname) =
        stripTrailingSlashPath p.pathname →
      normalizeUrl (normalizeUrl u) = normalizeUrl u) ∧
    (∀ u : String, parseUrl u = none →
      normalizeUrl (normalizeUrl u) = normalizeUrl u) ∧
    normalizeUrl "https://www.EX.com/a/" = normalizeUrl "https://ex.com/a?x=1#f" :=
  ⟨fun u p hp hW hN hS => normalizeUrl_idem_of_parsed u p hp hW hN hS,
    fun u h => normalizeUrl_idem_of_unparsed u h,
    by decide⟩

/-- Counterexample to C9 as stated: three families of URLs on which
normalizeUrl is not idempotent - a doubled www. host segment, a host that
is exactly www., and a path with a doubled trailing slash. -/
theorem C9_counterexample :
    normalizeUrl (normalizeUrl "https://www.www.ex.com/a")
      ≠ normalizeUrl "https://www.www.ex.com/a" ∧
    normalizeUrl (normalizeUrl "https://www./AB") ≠ normalizeUrl "https://www./AB" ∧
    normalizeUrl (normalizeUrl "https://ex.com/a//") ≠ normalizeUrl "https://ex.com/a//" := by
  refine ⟨by decide, by decide, by decide⟩

/-- Witness for C9 (amended) at a concrete parsed URL with a single www.
segment and a single trailing slash. -/
theorem C9_amended_normalizeUrl_idempotence_witness :
    (parseUrl "https://www.EX.com/p/" =
      some ⟨"https".data, "www.ex.com".data, "/p/".data⟩ ∧
      isPrefixCh ['w', 'w', 'w', '.'] (stripWwwOnce ("www.ex.com".data)) = false ∧
      stripWwwOnce ("www.ex.com".data) ≠ [] ∧
      stripTrailingSlashPath (stripTrailingSlashPath ("/p/".data)) =
        stripTrailingSlashPath ("/p/".data)) ∧
    normalizeUrl (normalizeUrl "https://www.EX.com/p/") =
      normalizeUrl "https://www.EX.com/p/" :=
  ⟨⟨by decide, by decide, by decide, by decide⟩,
    C9_amended_normalizeUrl_idempotence.1 "https://www.EX.com/p/"
      ⟨"https".data, "www.ex.com".data, "/p/".data⟩
      (by decide) (by decide) (by decide) (by decide)⟩

/-- Counterexample to C8 as stated: on 2025-01-31 at 10:00 UTC with a
monthly cadence and a 09:00 delivery time, the delivery time has passed,
and the next run lands on 2025-02-28 at 09:00 - the day-of-month is
clamped from 31 to 28 rather than kept. -/
theorem C8_counterexample :
    (civilFromMs (20119 * 86400000 + 10 * 3600000)).day = 31 ∧
    (civilFromMs (20119 * 86400000 + 10 * 3600000)).month = 1 ∧
    (civilFromMs (20119 * 86400000 + 10 * 3600000)).year = 2025 ∧
    civilToMs (setTimeOfDay (civilFromMs (20119 * 86400000 + 10 * 3600000)) 9 0)
      ≤ civilToMs (civilFromMs (20119 * 86400000 + 10 * 3600000)) ∧
    calculateNextRunAt .monthly 9 0 0 none (20119 * 86400000 + 10 * 3600000)
      = ((20147 * 86400000 + 9 * 3600000 : Nat) : Int) ∧
    (civilFromMs (20147 * 86400000 + 9 * 3600000)).day = 28 ∧
    (civilFromMs (20147 * 86400000 + 9 * 3600000)).month = 2 ∧
    (civilFromMs (20147 * 86400000 + 9 * 3600000)).year = 2025 := by
  refine ⟨by decide, by decide, by decide, by decide, by decide, by decide, by decide, by decide⟩

/-- Witness for C8 (amended) at a concrete daily schedule. -/
theorem C8_amended_calculateNextRunAt_witness :
    (0 ≤ ((36000000 : Nat) : Int) + (0 : Int)) ∧
    (((36000000 : Nat) : Int) < calculateNextRunAt .daily 9 0 0 none 36000000 ∧
    calculateNextRunAt .daily 9 0 0 none 36000000 =
      (if civilToMs (toZonedTime 36000000 0)
          < civilToMs (setTimeOfDay (toZonedTime 36000000 0) 9 0) then
        fromZonedTime (setTimeOfDay (toZonedTime 36000000 0) 9 0) 0
      else
        fromZonedTime
          (addFrequencyPeriod (setTimeOfDay (toZonedTime 36000000 0) 9 0) .daily) 0) ∧
    (¬ civilToMs (toZonedTime 36000000 0)
        < civilToMs (setTimeOfDay (toZonedTime 36000000 0) 9 0) →
      (Frequency.daily = .daily →
        calculateNextRunAt .daily 9 0 0 none 36000000 =
          fromZonedTime (setTimeOfDay (toZonedTime 36000000 0) 9 0) 0 + 86400000) ∧
      (Frequency.daily = .weekly →
        calculateNextRunAt .daily 9 0 0 none 36000000 =
          fromZonedTime (setTimeOfDay (toZonedTime 36000000 0) 9 0) 0 + 7 * 86400000) ∧
      (Frequency.daily = .monthly →
        calculateNextRunAt .daily 9 0 0 none 36000000 =
          fromZonedTime (addMonthsCivil (setTimeOfDay (toZonedTime 36000000 0) 9 0)) 0))) :=
  ⟨by decide, C8_amended_calculateNextRunAt .daily 9 0 0 none 36000000 (by decide)⟩

end Relevx
